import Mathlib

/-!
Verification development for the LAN device-network simulator.

The Python sources are shallowly embedded as Lean definitions:

* `PopCount`, `IPv4` — helpers mirroring the dotted-quad arithmetic used
  throughout the sources (`ip_to_int`, `_ip_to_binary`, mask popcounts).
* `PrefixTrie` — `src/prefix_trie.py` (octet-indexed trie with policy dicts).
* `AVLRouteTable` — `src/avl_route_table.py`; `AVLTreeMod` — `src/AVLTree.py`.
* `BTreeIndex` — `src/btree_index.py` (order-`t` B-tree of string pairs).
* `Net` — `src/network.py` `tick`/`send_packet` over `src/device.py`,
  `src/interface.py`, `src/Queue.py`, `src/Stack.py` state.

Python dicts keyed by small ints are represented as association lists,
object references by (device name, interface name) pairs, and the policy
dict `{block: ..., ttl-min: ...}` by a two-field structure; `uuid` packet
ids and display-only interpolated log messages are not modelled (only the
log entry kinds, which the claims refer to).
-/

/-- Binary digit recursion for `popCount`, made structural through a fuel
argument so that concrete instances reduce in the kernel. -/
def popCountGo : Nat → Nat → Nat
  | _, 0 => 0
  | 0, _ + 1 => 0
  | fuel + 1, n + 1 => (n + 1) % 2 + popCountGo fuel ((n + 1) / 2)

/-- Number of 1 bits of a natural number, as Python `bin(x).count("1")`;
`n` units of fuel always suffice because the argument halves each step. -/
def popCount (n : Nat) : Nat := popCountGo n n

/-- A dotted-quad IPv4 value as it appears in the sources (four octet ints). -/
structure IPv4 where
  a : Nat
  b : Nat
  c : Nat
  d : Nat
deriving DecidableEq, Repr

namespace IPv4

/-- The four octets in order, as produced by `ip.split(".")`. -/
def quadList (x : IPv4) : List Nat := [x.a, x.b, x.c, x.d]

/-- `Route.ip_to_int` from `AVLTree.py` (also the inline int conversion in
`avl_route_table.py`): `(a << 24) + (b << 16) + (c << 8) + d`. -/
def toNat32 (x : IPv4) : Nat :=
  x.a * 16777216 + x.b * 65536 + x.c * 256 + x.d

/-- The 8-bit big-endian representation of one octet
(Python `f"{octet:08b}"`). -/
def bits8 (n : Nat) : List Bool :=
  [n.testBit 7, n.testBit 6, n.testBit 5, n.testBit 4,
   n.testBit 3, n.testBit 2, n.testBit 1, n.testBit 0]

/-- `_ip_to_binary` of `avl_route_table.py`: the 32-character binary string,
as a list of bits. -/
def toBits (x : IPv4) : List Bool :=
  bits8 x.a ++ bits8 x.b ++ bits8 x.c ++ bits8 x.d

/-- `sum(bin(int(o)).count("1") for o in mask.split("."))`: the mask length
used by the sources, a per-octet popcount sum. -/
def maskLen (m : IPv4) : Nat :=
  popCount m.a + popCount m.b + popCount m.c + popCount m.d

/-- `_ip_match` of `avl_route_table.py`: the first `len` binary characters
coincide. -/
def ipMatch (ipBits pfxBits : List Bool) (len : Nat) : Bool :=
  ipBits.take len == pfxBits.take len

end IPv4

/-! ## PrefixTrie (`src/prefix_trie.py`)

`TrieNode.children` is a Python dict keyed by octet value; we embed it as an
association list with unique keys (insertion order is irrelevant to every
claimed behaviour).  `TrieNode.policy` is an open dict that only ever holds
the keys `"block"` (always `True`) and `"ttl-min"`; it is embedded as the
two-field structure `Policy`, with `none` for the absent dict. -/

/-- The policy dict of a trie node: `block ∈ dict` and the stored
`ttl-min` value, if any. -/
structure Policy where
  block : Bool
  ttlMin : Option Nat
deriving DecidableEq, Repr

/-- The two policy kinds ever passed to `set_policy` by the dispatcher
(`policy set ... block` and `policy set ... ttl-min N`). -/
inductive PolicyKind where
  | block
  | ttlMin (n : Nat)
deriving DecidableEq, Repr

/-- A trie node: children dict, optional policy dict, `is_end` flag and the
display labels (`prefix`, `mask`). -/
inductive TrieNode where
  | mk (children : List (Nat × TrieNode)) (policy : Option Policy)
      (isEnd : Bool) (pfxLabel : Option IPv4) (maskLabel : Option IPv4)

namespace TrieNode

def children : TrieNode → List (Nat × TrieNode)
  | mk cs _ _ _ _ => cs

def policy : TrieNode → Option Policy
  | mk _ p _ _ _ => p

def isEnd : TrieNode → Bool
  | mk _ _ e _ _ => e

/-- A fresh `TrieNode()`. -/
def empty : TrieNode := mk [] none false none none

/-- Dict read: `node.children[part]` when present. -/
def childGet : List (Nat × TrieNode) → Nat → Option TrieNode
  | [], _ => none
  | p :: rest, k => if p.1 == k then some p.2 else childGet rest k

/-- Dict write: `node.children[k] = t` (replace the binding or add it). -/
def childSet (cs : List (Nat × TrieNode)) (k : Nat) (t : TrieNode) :
    List (Nat × TrieNode) :=
  match cs with
  | [] => [(k, t)]
  | p :: rest => if p.1 == k then (k, t) :: rest else p :: childSet rest k t

end TrieNode

namespace PrefixTrie

open TrieNode

/-- The walked octets of `_get_node`: prefix parts taken while the matching
mask octet is nonzero (`if mask_parts[i] == 0: break`). -/
def walkParts (pfx mask : IPv4) : List Nat :=
  (((mask.quadList).zip (pfx.quadList)).takeWhile (fun pm => pm.1 != 0)).map
    (fun pm => pm.2)

/-- The body of `set_policy` applied at the terminal node: create the dict if
missing, then set the one key for the given kind, and mark the node. -/
def applyPolicy (kind : PolicyKind) (pfx mask : IPv4) : TrieNode → TrieNode
  | TrieNode.mk cs pol _ _ _ =>
    let base := pol.getD ⟨false, none⟩
    let pol' := match kind with
      | PolicyKind.block => { base with block := true }
      | PolicyKind.ttlMin n => { base with ttlMin := some n }
    TrieNode.mk cs (some pol') true (some pfx) (some mask)

/-- `_get_node(create=True)` fused with the terminal update: walk the parts,
creating missing children, and rewrite the terminal node. -/
def setAt (node : TrieNode) (parts : List Nat)
    (upd : TrieNode → TrieNode) : TrieNode :=
  match parts with
  | [] => upd node
  | p :: ps =>
    match node with
    | TrieNode.mk cs pol e lp lm =>
      let child := (childGet cs p).getD TrieNode.empty
      TrieNode.mk (childSet cs p (setAt child ps upd)) pol e lp lm

/-- `set_policy(prefix, mask, kind)` of `prefix_trie.py`. -/
def setPolicy (root : TrieNode) (pfx mask : IPv4) (kind : PolicyKind) :
    TrieNode :=
  setAt root (walkParts pfx mask) (applyPolicy kind pfx mask)

/-- `_get_node(create=False)`: walk the parts, `none` when a child is
missing. -/
def getNode (node : TrieNode) (parts : List Nat) : Option TrieNode :=
  match parts with
  | [] => some node
  | p :: ps =>
    match childGet node.children p with
    | some child => getNode child ps
    | none => none

/-- The loop of `lookup_policy`: walk the ip's octets, remembering the last
truthy policy dict seen, stopping at a missing child. -/
def lookupGo (node : TrieNode) (parts : List Nat) (best : Option Policy) :
    Option Policy :=
  match parts with
  | [] => best
  | p :: ps =>
    match childGet node.children p with
    | some child =>
      lookupGo child ps (match child.policy with
        | some pol => some pol
        | none => best)
    | none => best

/-- `lookup_policy(ip)` of `prefix_trie.py`. -/
def lookupPolicy (root : TrieNode) (ip : IPv4) : Option Policy :=
  lookupGo root ip.quadList none

/-- The policies of the nodes visited by the `lookup_policy` walk, in order
(used to state the spec's "deepest policy-bearing visited node" reading). -/
def walkedPolicies (node : TrieNode) (parts : List Nat) :
    List (Option Policy) :=
  match parts with
  | [] => []
  | p :: ps =>
    match childGet node.children p with
    | some child => child.policy :: walkedPolicies child ps
    | none => []

/-- The last set entry of a list of optional policies (the "deepest visited
node that has one set"). -/
def lastSome : List (Option Policy) → Option Policy
  | [] => none
  | x :: xs =>
    match lastSome xs with
    | some p => some p
    | none => x

/-- Modelled from the spec's words for `lookup_policy`: the policy of the
deepest visited node that has one set, or none. -/
def deepestPolicy (node : TrieNode) (parts : List Nat) : Option Policy :=
  lastSome (walkedPolicies node parts)

/-- The read-only walk underlying `_get_node(create=True)`: the node reached
along `parts`, materialising missing children as fresh nodes (used to state
lemmas about `setAt`). -/
def reach (node : TrieNode) : List Nat → TrieNode
  | [] => node
  | p :: ps => reach ((TrieNode.childGet node.children p).getD TrieNode.empty) ps

end PrefixTrie

/-! ## AVLRouteTable (`src/avl_route_table.py`)

Nodes carry the route fields and a cached height.  The ordering key is the
pair of octet tuples `(prefix, mask)` compared lexicographically, exactly as
`tuple(map(int, prefix.split("."))), tuple(map(int, mask.split(".")))` in
`_insert`/`_delete`.  The rotation counters of `self.stats` are threaded
through the mutating operations. -/

/-- One stored route of `avl_route_table.py` (`AVLNode` data fields). -/
structure RouteEntry where
  pfx : IPv4
  mask : IPv4
  nextHop : IPv4
  metric : Nat
deriving DecidableEq, Repr

/-- Python lexicographic `<` on integer lists (tuple comparison). -/
def listLtB : List Nat → List Nat → Bool
  | _, [] => false
  | [], _ :: _ => true
  | x :: xs, y :: ys => if x < y then true else if y < x then false else listLtB xs ys

/-- The `(prefix, mask)` comparison key as one 8-element list (tuples of
equal length compare exactly like their concatenation). -/
def keyOfPM (p m : IPv4) : List Nat := p.quadList ++ m.quadList

/-- The rotation counters `self.stats = dict(LL=..., LR=..., RL=..., RR=...)`. -/
structure RotStats where
  ll : Nat
  lr : Nat
  rl : Nat
  rr : Nat
deriving DecidableEq, Repr

def RotStats.zero : RotStats := ⟨0, 0, 0, 0⟩

/-- The AVL tree of routes; `nil` is Python `None`. -/
inductive AVLT where
  | nil
  | node (entry : RouteEntry) (left right : AVLT) (h : Nat)
deriving DecidableEq, Repr

namespace AVLT

/-- `_get_height`. -/
def getHeight : AVLT → Nat
  | nil => 0
  | node _ _ _ h => h

/-- `_get_balance` (an int in Python, so `Int` here). -/
def getBalance : AVLT → Int
  | nil => 0
  | node _ l r _ => (getHeight l : Int) - (getHeight r : Int)

/-- The comparison key of a node; `[]` for `nil` (Python would fault there,
and the rebalancing code only reads child keys of non-`None` children). -/
def keyOfT : AVLT → List Nat
  | nil => []
  | node e _ _ _ => keyOfPM e.pfx e.mask

/-- `_right_rotate`; on shapes the algorithm never produces (missing left
child, where Python would raise) the tree is returned unchanged. -/
def rightRotate : AVLT → AVLT
  | node ye (node xe xl t2 _) yr _ =>
    let yh := 1 + max (getHeight t2) (getHeight yr)
    node xe xl (node ye t2 yr yh) (1 + max (getHeight xl) yh)
  | t => t

/-- `_left_rotate`, symmetric to `rightRotate`. -/
def leftRotate : AVLT → AVLT
  | node xe xl (node ye t2 yr _) _ =>
    let xh := 1 + max (getHeight xl) (getHeight t2)
    node ye (node xe xl t2 xh) yr (1 + max xh (getHeight yr))
  | t => t

/-- The tail of `_insert` after the recursive call: refresh the height and
apply the four rotation cases in source order, counting them. -/
def rebalIns (newKey : List Nat) (e : RouteEntry) (l r : AVLT) (s : RotStats) :
    AVLT × RotStats :=
  let hn := 1 + max (getHeight l) (getHeight r)
  let bal : Int := (getHeight l : Int) - (getHeight r : Int)
  if bal > 1 ∧ listLtB newKey (keyOfT l) = true then
    (rightRotate (node e l r hn), { s with ll := s.ll + 1 })
  else if bal < -1 ∧ listLtB (keyOfT r) newKey = true then
    (leftRotate (node e l r hn), { s with rr := s.rr + 1 })
  else if bal > 1 ∧ listLtB (keyOfT l) newKey = true then
    (rightRotate (node e (leftRotate l) r hn), { s with lr := s.lr + 1 })
  else if bal < -1 ∧ listLtB newKey (keyOfT r) = true then
    (leftRotate (node e l (rightRotate r) hn), { s with rl := s.rl + 1 })
  else (node e l r hn, s)

/-- `_insert(node, prefix, mask, next_hop, metric)`. -/
def insertGo (t : AVLT) (p m : IPv4) (nh : IPv4) (mt : Nat) (s : RotStats) :
    AVLT × RotStats :=
  match t with
  | nil => (node ⟨p, m, nh, mt⟩ nil nil 1, s)
  | node e l r h =>
    let nodeKey := keyOfPM e.pfx e.mask
    let newKey := keyOfPM p m
    if listLtB newKey nodeKey then
      let res := insertGo l p m nh mt s
      rebalIns newKey e res.1 r res.2
    else if listLtB nodeKey newKey then
      let res := insertGo r p m nh mt s
      rebalIns newKey e l res.1 res.2
    else
      (node { e with nextHop := nh, metric := mt } l r h, s)

/-- The rebalancing tail of `_delete` (balance-factor driven cases). -/
def rebalDel (e : RouteEntry) (l r : AVLT) (s : RotStats) : AVLT × RotStats :=
  let hn := 1 + max (getHeight l) (getHeight r)
  let bal : Int := (getHeight l : Int) - (getHeight r : Int)
  if bal > 1 ∧ getBalance l ≥ 0 then
    (rightRotate (node e l r hn), { s with ll := s.ll + 1 })
  else if bal > 1 ∧ getBalance l < 0 then
    (rightRotate (node e (leftRotate l) r hn), { s with lr := s.lr + 1 })
  else if bal < -1 ∧ getBalance r ≤ 0 then
    (leftRotate (node e l r hn), { s with rr := s.rr + 1 })
  else if bal < -1 ∧ getBalance r > 0 then
    (leftRotate (node e l (rightRotate r) hn), { s with rl := s.rl + 1 })
  else (node e l r hn, s)

/-- `_min_value_node`: the data fields of the leftmost node (only invoked on
non-`None` subtrees). -/
def minEntry : AVLT → RouteEntry
  | nil => ⟨⟨0, 0, 0, 0⟩, ⟨0, 0, 0, 0⟩, ⟨0, 0, 0, 0⟩, 0⟩
  | node e l _ _ =>
    match l with
    | nil => e
    | node e2 l2 r2 h2 => minEntry (node e2 l2 r2 h2)

/-- `_delete(node, prefix, mask)`. -/
def deleteGo (t : AVLT) (p m : IPv4) (s : RotStats) : AVLT × RotStats :=
  match t with
  | nil => (nil, s)
  | node e l r _ =>
    let nodeKey := keyOfPM e.pfx e.mask
    let delKey := keyOfPM p m
    if listLtB delKey nodeKey then
      let res := deleteGo l p m s
      rebalDel e res.1 r res.2
    else if listLtB nodeKey delKey then
      let res := deleteGo r p m s
      rebalDel e l res.1 res.2
    else
      match l, r with
      | nil, _ => (r, s)
      | node el ll lr lh, nil => (node el ll lr lh, s)
      | node el ll lr lh, node er rl rr rh =>
        let tmp := minEntry (node er rl rr rh)
        let res := deleteGo (node er rl rr rh) tmp.pfx tmp.mask s
        rebalDel tmp (node el ll lr lh) res.1 res.2

/-- The `while` loop of `lookup`: keep the strictly more specific match and
descend by the integer comparison of destination and node prefix. -/
def lookupGo (t : AVLT) (dest : IPv4) (best : Option RouteEntry) :
    Option RouteEntry :=
  match t with
  | nil => best
  | node e l r _ =>
    let mlen := IPv4.maskLen e.mask
    let hit := IPv4.ipMatch dest.toBits e.pfx.toBits mlen
    let best' :=
      if (hit && (match best with
        | none => true
        | some b => decide (IPv4.maskLen b.mask < mlen))) = true
      then some e else best
    if dest.toNat32 < e.pfx.toNat32 then lookupGo l dest best'
    else lookupGo r dest best'

/-- `_collect_routes` / in-order traversal of the stored routes. -/
def inorderT : AVLT → List RouteEntry
  | nil => []
  | node e l r _ => inorderT l ++ e :: inorderT r

end AVLT

/-- `AVLRouteTable`: the root and the rotation counters. -/
structure AVLRouteTable where
  root : AVLT
  stats : RotStats
deriving DecidableEq, Repr

namespace AVLRouteTable

/-- `AVLRouteTable()`. -/
def empty : AVLRouteTable := ⟨AVLT.nil, RotStats.zero⟩

/-- `add_route(prefix, mask, next_hop, metric)`. -/
def addRoute (t : AVLRouteTable) (p m : IPv4) (nh : IPv4) (mt : Nat) :
    AVLRouteTable :=
  let res := AVLT.insertGo t.root p m nh mt t.stats
  ⟨res.1, res.2⟩

/-- `del_route(prefix, mask)`. -/
def delRoute (t : AVLRouteTable) (p m : IPv4) : AVLRouteTable :=
  let res := AVLT.deleteGo t.root p m t.stats
  ⟨res.1, res.2⟩

/-- `lookup(dest_ip)`. -/
def lookup (t : AVLRouteTable) (dest : IPv4) : Option RouteEntry :=
  AVLT.lookupGo t.root dest none

/-- The in-order route list (`show_routes` / `_collect_routes`). -/
def inorder (t : AVLRouteTable) : List RouteEntry :=
  AVLT.inorderT t.root

end AVLRouteTable

/-! ## AVLTree (`src/AVLTree.py`)

The second, divergent AVL route table of the repository, keyed by
`(network asc, mask length desc, metric asc)` via `compare_routes` and with
a recursive two-sided `lookup`.  Only the parts claim C1 cites are embedded:
`Route`, `insert`, `lookup`. -/

/-- `Route` of `AVLTree.py` with its cached derived fields. -/
structure RouteM where
  pfx : IPv4
  mask : IPv4
  nextHop : IPv4
  metric : Int
deriving DecidableEq, Repr

namespace RouteM

/-- `self.mask_int` / `self.prefix_int`. -/
def maskInt (r : RouteM) : Nat := r.mask.toNat32

/-- `self.mask_len = bin(mask_int).count("1")`. -/
def maskLenM (r : RouteM) : Nat := popCount r.mask.toNat32

/-- `self.network = prefix_int & mask_int`. -/
def network (r : RouteM) : Nat := r.pfx.toNat32 &&& r.mask.toNat32

/-- `compare_routes`: network ascending, mask length descending, metric
ascending, as a signed difference. -/
def compareRoutes (r1 r2 : RouteM) : Int :=
  if r1.network ≠ r2.network then (r1.network : Int) - (r2.network : Int)
  else if r1.maskLenM ≠ r2.maskLenM then (r2.maskLenM : Int) - (r1.maskLenM : Int)
  else r1.metric - r2.metric

end RouteM

/-- The AVL tree of `AVLTree.py` (`nil` is Python `None`). -/
inductive AVLM where
  | nil
  | node (route : RouteM) (left right : AVLM) (h : Nat)
deriving DecidableEq, Repr

namespace AVLM

def heightM : AVLM → Nat
  | nil => 0
  | node _ _ _ h => h

def balanceM : AVLM → Int
  | nil => 0
  | node _ l r _ => (heightM l : Int) - (heightM r : Int)

def routeOf : AVLM → RouteM
  | nil => ⟨⟨0, 0, 0, 0⟩, ⟨0, 0, 0, 0⟩, ⟨0, 0, 0, 0⟩, 0⟩
  | node rt _ _ _ => rt

/-- `rotate_right`. -/
def rotateRight : AVLM → AVLM
  | node yr (node xr xl t2 _) yrt _ =>
    let yh := 1 + max (heightM t2) (heightM yrt)
    node xr xl (node yr t2 yrt yh) (1 + max (heightM xl) yh)
  | t => t

/-- `rotate_left`. -/
def rotateLeft : AVLM → AVLM
  | node xr xl (node yr t2 yrt _) _ =>
    let xh := 1 + max (heightM xl) (heightM t2)
    node yr (node xr xl t2 xh) yrt (1 + max xh (heightM yrt))
  | t => t

/-- `insert(root, route)` (ties descend right; rotation counters omitted
from this secondary embedding, they touch no claim). -/
def insertM (t : AVLM) (rt : RouteM) : AVLM :=
  match t with
  | nil => node rt nil nil 1
  | node e l r _ =>
    let l' := if RouteM.compareRoutes rt e < 0 then insertM l rt else l
    let r' := if RouteM.compareRoutes rt e < 0 then r else insertM r rt
    let hn := 1 + max (heightM l') (heightM r')
    let bal : Int := (heightM l' : Int) - (heightM r' : Int)
    if bal > 1 ∧ RouteM.compareRoutes rt (routeOf l') < 0 then
      rotateRight (node e l' r' hn)
    else if bal < -1 ∧ RouteM.compareRoutes rt (routeOf r') > 0 then
      rotateLeft (node e l' r' hn)
    else if bal > 1 ∧ RouteM.compareRoutes rt (routeOf l') > 0 then
      rotateRight (node e (rotateLeft l') r' hn)
    else if bal < -1 ∧ RouteM.compareRoutes rt (routeOf r') < 0 then
      rotateLeft (node e l' (rotateRight r') hn)
    else node e l' r' hn

/-- `_lookup(node, dest_int)`: recursive, both subtrees explored only when
the current node itself covers the destination. -/
def lookupM (t : AVLM) (destInt : Nat) : Option RouteM :=
  match t with
  | nil => none
  | node rt l r _ =>
    if destInt &&& rt.maskInt = rt.network then
      let leftMatch := lookupM l destInt
      match leftMatch with
      | some lm =>
        if lm.maskLenM > rt.maskLenM then some lm
        else
          match lookupM r destInt with
          | some rm => if rm.maskLenM > rt.maskLenM then some rm else some rt
          | none => some rt
      | none =>
        match lookupM r destInt with
        | some rm => if rm.maskLenM > rt.maskLenM then some rm else some rt
        | none => some rt
    else if destInt < rt.network then lookupM l destInt
    else lookupM r destInt

end AVLM

/-! ## BTreeIndex (`src/btree_index.py`)

`BTreeNode` keeps its keys and values in two parallel lists which every
operation updates in lockstep; they are embedded as one list of pairs.  The
descent of `_insert_non_full` and `_search` goes through a child picked by
index, which is not structurally smaller after a preceding `_split_child`;
the recursions are therefore driven by an explicit fuel argument, and the
public wrappers pass `depthB` of the tree, which always suffices (each
descent step enters a tree of strictly smaller `depthB`). -/

/-- A B-tree node: entries (parallel `keys`/`values` lists), children and
the `leaf` flag. -/
inductive BTNode where
  | mk (entries : List (String × String)) (children : List BTNode) (leaf : Bool)

namespace BTNode

def entries : BTNode → List (String × String)
  | mk es _ _ => es

def children : BTNode → List BTNode
  | mk _ cs _ => cs

def leafFlag : BTNode → Bool
  | mk _ _ lf => lf

/-- The keys of an entry list. -/
def keysOfE (es : List (String × String)) : List String := es.map Prod.fst

end BTNode

mutual

/-- Fuel bound for the descent recursions: one more than the nesting depth. -/
def depthB : BTNode → Nat
  | BTNode.mk _ cs _ => 1 + depthList cs

def depthList : List BTNode → Nat
  | [] => 0
  | c :: rest => max (depthB c) (depthList rest)

end

namespace BTreeIdx

open BTNode

/-- The scan `i = len-1; while i >= 0 and key < keys[i]: i -= 1; i += 1` of
`_insert_non_full`: the position after the last key that is `<= key`. -/
def insPos (k : String) (keys : List String) : Nat :=
  keys.length - ((keys.reverse.takeWhile (fun x => decide (k < x))).length)

/-- The scan `while i < len(keys) and key > keys[i]: i += 1` of `_search`. -/
def searchPos (k : String) (keys : List String) : Nat :=
  (keys.takeWhile (fun x => decide (x < k))).length

/-- `_split_child(parent, i)`: promote the median entry of child `i` into the
parent and hand the upper half to a fresh right sibling.  On shapes the
algorithm never reaches (missing child or median, where Python would raise)
the node is returned unchanged. -/
def splitChild (order : Nat) (node : BTNode) (i : Nat) : BTNode :=
  match node with
  | BTNode.mk es cs lf =>
    match cs.get? i with
    | none => BTNode.mk es cs lf
    | some (BTNode.mk yes ycs ylf) =>
      match yes.get? (order - 1) with
      | none => BTNode.mk es cs lf
      | some med =>
        let z := BTNode.mk ((yes.drop order).take (order - 1))
          (if ylf then [] else (ycs.drop order).take order) ylf
        let y' := BTNode.mk (yes.take (order - 1))
          (if ylf then ycs else ycs.take order) ylf
        BTNode.mk (es.insertIdx i med) ((cs.set i y').insertIdx (i + 1) z) lf

/-- Is the child at index `i` full (`2*order - 1` keys)? -/
def childFullAt (order : Nat) (cs : List BTNode) (i : Nat) : Bool :=
  match cs.get? i with
  | some (BTNode.mk yes _ _) => yes.length == 2 * order - 1
  | none => false

/-- `_insert_non_full(node, key, value)`; the second component counts the
`self.stats["splits"] += 1` increments performed inside. -/
def insertNF (order : Nat) : Nat → BTNode → String → String → BTNode × Nat
  | 0, node, _, _ => (node, 0)
  | fuel + 1, BTNode.mk es cs lf, k, v =>
    let i := insPos k (keysOfE es)
    if lf then (BTNode.mk (es.insertIdx i (k, v)) cs lf, 0)
    else
      let full := childFullAt order cs i
      let node1 := if full then splitChild order (BTNode.mk es cs lf) i
        else BTNode.mk es cs lf
      let d1 := if full then 1 else 0
      let i1 := if full then
          match node1.entries.get? i with
          | some e => if decide (e.1 < k) then i + 1 else i
          | none => i
        else i
      match node1 with
      | BTNode.mk es1 cs1 lf1 =>
        match cs1.get? i1 with
        | some c =>
          let res := insertNF order fuel c k v
          (BTNode.mk es1 (cs1.set i1 res.1) lf1, d1 + res.2)
        | none => (BTNode.mk es1 cs1 lf1, d1)

/-- `_search(node, key)`. -/
def searchGo : Nat → BTNode → String → Option String
  | 0, _, _ => none
  | fuel + 1, BTNode.mk es cs lf, k =>
    let i := searchPos k (keysOfE es)
    match es.get? i with
    | some e =>
      if e.1 == k then some e.2
      else if lf then none
      else
        match cs.get? i with
        | some c => searchGo fuel c k
        | none => none
    | none =>
      if lf then none
      else
        match cs.get? i with
        | some c => searchGo fuel c k
        | none => none

/-- The child-entry interleaving of `_inorder` on an internal node
(`for i in range(len(keys)): inorder(children[i]); append entry i`). -/
def zipInter (rec : BTNode → List (String × String)) :
    List (String × String) → List BTNode → List (String × String)
  | [], _ => []
  | _ :: _, [] => []
  | e :: es, c :: cs => rec c ++ e :: zipInter rec es cs

/-- `_inorder(node)`. -/
def inorderGo : Nat → BTNode → List (String × String)
  | 0, _ => []
  | fuel + 1, BTNode.mk es cs lf =>
    if lf then es
    else
      zipInter (inorderGo fuel) es cs ++
        (match cs.getLast? with
          | some c => inorderGo fuel c
          | none => [])

end BTreeIdx

/-- `BTreeIndex`: root, order and the cumulative split/merge counters. -/
structure BTreeIndex where
  root : BTNode
  order : Nat
  splits : Nat
  merges : Nat

namespace BTreeIndex

/-- `BTreeIndex(order)`: an empty leaf root. -/
def new (order : Nat) : BTreeIndex := ⟨BTNode.mk [] [] true, order, 0, 0⟩

/-- `insert(key, value)`: split a full root first, then non-full insertion. -/
def insert (t : BTreeIndex) (k v : String) : BTreeIndex :=
  if t.root.entries.length = 2 * t.order - 1 then
    let newRoot := BTreeIdx.splitChild t.order
      (BTNode.mk [] [t.root] false) 0
    let res := BTreeIdx.insertNF t.order (depthB newRoot) newRoot k v
    { t with root := res.1, splits := t.splits + 1 + res.2 }
  else
    let res := BTreeIdx.insertNF t.order (depthB t.root) t.root k v
    { t with root := res.1, splits := t.splits + res.2 }

/-- `search(key)`. -/
def search (t : BTreeIndex) (k : String) : Option String :=
  BTreeIdx.searchGo (depthB t.root) t.root k

/-- `inorder()`. -/
def inorder (t : BTreeIndex) : List (String × String) :=
  BTreeIdx.inorderGo (depthB t.root) t.root

end BTreeIndex

/-! ## Network state and tick (`src/network.py`, `src/interface.py`,
`src/device.py`, `src/Queue.py`, `src/Stack.py`, `src/packet.py`)

Object references between interfaces (the `neighbors` links established by
`Interface.connect`) are embedded as `(device name, interface name)` pairs
resolved against the current network state; device and interface names are
unique in every scenario the claims mention, which makes this resolution
equivalent to Python's object identity.  `network.tick` walks devices and
their interfaces by position while mutating queue contents in place, so the
embedding folds over index ranges, re-reading the current state at each
interface.  Per-device route table and policy trie are the fields the tick
reads (`device.route_table`, `device.prefix_trie`); the packet `path` is a
name list and `hops_sum` adds its length on delivery.  Error-log entries are
embedded by their `error_type` string; the interpolated message text and
originating-command string are display-only and not modelled. -/

/-- A packet (`packet.py`); the `uuid` identifier is not modelled, the
claims compare the data fields. -/
structure Packet where
  sourceIp : IPv4
  destinationIp : IPv4
  content : String
  ttl : Int
  path : List String
deriving DecidableEq, Repr

namespace Packet

/-- `hop(device_name)`: append to the path, decrement the TTL. -/
def hop (p : Packet) (deviceName : String) : Packet :=
  { p with path := p.path ++ [deviceName], ttl := p.ttl - 1 }

/-- `is_expired()`: `ttl <= 0`. -/
def isExpired (p : Packet) : Bool := p.ttl ≤ 0

end Packet

/-- `Queue(max_size)` of packets, front of the queue first. -/
structure PQueue where
  items : List Packet
  maxSize : Nat
deriving DecidableEq, Repr

namespace PQueue

/-- `enqueue(item)`: when the queue already holds `max_size` items the
oldest one is dequeued and discarded first. -/
def enqueue (q : PQueue) (p : Packet) : PQueue :=
  if q.maxSize ≤ q.items.length then { q with items := q.items.tail ++ [p] }
  else { q with items := q.items ++ [p] }

end PQueue

/-- `Stack.push` with `max_size = 100` (the receive-history bound): the
oldest (bottom) element is removed first when full; the list is top-first. -/
def stackPush (l : List Packet) (p : Packet) : List Packet :=
  p :: (if 100 ≤ l.length then l.dropLast else l)

/-- An interface (`interface.py`): name, optional address, status, neighbor
references and the bounded packet queue. -/
structure Interface where
  name : String
  ipAddress : Option IPv4
  statusUp : Bool
  neighbors : List (String × String)
  packetQueue : PQueue

/-- A device (`device.py`) together with the per-device route table and
policy trie that `network.tick` consults, and the receive history. -/
structure Device where
  name : String
  statusUp : Bool
  interfaces : List Interface
  receivedStack : List Packet
  routeTable : AVLRouteTable
  prefixTrie : TrieNode

/-- The network (`network.py`): devices in insertion order, the statistics
counters, the per-device activity map and the error log (entry kinds). -/
structure Net where
  devices : List Device
  totalPacketsSent : Nat
  totalPacketsDelivered : Nat
  totalPacketsDropped : Nat
  hopsSum : Nat
  deviceActivity : List (String × Nat)
  errorLog : List String

namespace Net

/-- Resolve an interface reference (neighbor link) by names. -/
def ifaceAt (σ : Net) (dn iname : String) : Option Interface :=
  match σ.devices.find? (fun d => d.name == dn) with
  | some d => d.interfaces.find? (fun i => i.name == iname)
  | none => none

/-- Enqueue a packet on the referenced interface's queue
(`next_hop_iface.enqueue_packet(packet)` through an object reference). -/
def enqueueAt (σ : Net) (dn iname : String) (p : Packet) : Net :=
  { σ with devices := σ.devices.map (fun d =>
      if d.name == dn then
        { d with interfaces := d.interfaces.map (fun i =>
            if i.name == iname then { i with packetQueue := i.packetQueue.enqueue p }
            else i) }
      else d) }

/-- `self.device_activity[device.name] += 1`. -/
def bumpActivity (acts : List (String × Nat)) (name : String) :
    List (String × Nat) :=
  acts.map (fun a => if a.1 == name then (a.1, a.2 + 1) else a)

/-- `self.error_log.log_error(kind, ...)` (entry kind only). -/
def logError (σ : Net) (kind : String) : Net :=
  { σ with errorLog := σ.errorLog ++ [kind] }

/-- The first neighbor reference whose resolved interface carries the given
address (`for neighbor_iface in iface.neighbors: if ... == target`). -/
def findNeighborRef (σ : Net) (refs : List (String × String)) (target : IPv4) :
    Option (String × String) :=
  refs.find? (fun ref =>
    match ifaceAt σ ref.1 ref.2 with
    | some nIfc => nIfc.ipAddress == some target
    | none => false)

/-- Replace the queue of interface `ii` of device `di`. -/
def setQueueAt (σ : Net) (di ii : Nat) (items : List Packet) : Net :=
  match σ.devices.get? di with
  | none => σ
  | some d =>
    match d.interfaces.get? ii with
    | none => σ
    | some ifc =>
      let ifc' := { ifc with packetQueue := { ifc.packetQueue with items := items } }
      let d' := { d with interfaces := d.interfaces.set ii ifc' }
      { σ with devices := σ.devices.set di d' }

/-- Deliver into the receive history of device `di`
(`device.receive_packet(packet)` plus the delivery statistics). -/
def deliverAt (σ : Net) (di : Nat) (p : Packet) : Net :=
  match σ.devices.get? di with
  | none => σ
  | some d =>
    let d' := { d with receivedStack := stackPush d.receivedStack p }
    { σ with
        devices := σ.devices.set di d',
        totalPacketsDelivered := σ.totalPacketsDelivered + 1,
        hopsSum := σ.hopsSum + p.path.length }

/-- A counted, logged drop (`self.error_log.log_error(kind, ...)` followed by
`self.total_packets_dropped += 1`). -/
def dropWith (σ : Net) (kind : String) : Net :=
  { (logError σ kind) with totalPacketsDropped := σ.totalPacketsDropped + 1 }

/-- The forwarding tail of the tick body once a candidate next-hop reference
has been resolved: enqueue on it when its interface is up, otherwise a
ForwardingError drop. -/
def forwardTo (σ : Net) (ref : String × String) (p : Packet) : Net :=
  match ifaceAt σ ref.1 ref.2 with
  | some nIfc =>
    if nIfc.statusUp then enqueueAt σ ref.1 ref.2 p
    else dropWith σ "ForwardingError"
  | none => dropWith σ "ForwardingError"

/-- The tick body from the hop on (lines 188-255 of `network.py`): hop,
delivery check, TTL-expiry check, route lookup, neighbor resolution,
forwarding. -/
def hopPhase (σ : Net) (di : Nat) (d : Device) (ifc : Interface)
    (pkt : Packet) : Net :=
  let p1 := pkt.hop d.name
  if ifc.ipAddress == some p1.destinationIp then deliverAt σ di p1
  else if p1.isExpired then dropWith σ "PacketDropped"
  else
    match d.routeTable.lookup p1.destinationIp with
    | some route =>
      match findNeighborRef σ ifc.neighbors route.nextHop with
      | some ref => forwardTo σ ref p1
      | none => dropWith σ "RoutingError"
    | none =>
      match findNeighborRef σ ifc.neighbors p1.destinationIp with
      | some ref => forwardTo σ ref p1
      | none => dropWith σ "RoutingError"

/-- The per-packet body of `tick` after the dequeue and activity bump:
policy check (lines 166-186), then the hop phase. -/
def processPacket (σ : Net) (di ii : Nat) (pkt : Packet) : Net :=
  match σ.devices.get? di with
  | none => σ
  | some d =>
    match d.interfaces.get? ii with
    | none => σ
    | some ifc =>
      match PrefixTrie.lookupPolicy d.prefixTrie pkt.destinationIp with
      | some pol =>
        if pol.block then dropWith σ "PolicyViolation"
        else
          match pol.ttlMin with
          | some m =>
            if pkt.ttl < (m : Int) then dropWith σ "PolicyViolation"
            else hopPhase σ di d ifc pkt
          | none => hopPhase σ di d ifc pkt
      | none => hopPhase σ di d ifc pkt

/-- One interface step of `tick`: skip when the interface is down or its
queue empty; otherwise dequeue, bump the device activity and process. -/
def tickIface (σ : Net) (di ii : Nat) : Net :=
  match σ.devices.get? di with
  | none => σ
  | some d =>
    match d.interfaces.get? ii with
    | none => σ
    | some ifc =>
      if ifc.statusUp then
        match ifc.packetQueue.items with
        | [] => σ
        | pkt :: rest =>
          let σ1 := setQueueAt σ di ii rest
          let σ2 := { σ1 with deviceActivity := bumpActivity σ1.deviceActivity d.name }
          processPacket σ2 di ii pkt
      else σ

/-- One device step of `tick`: all its interfaces in order, when the device
is up. -/
def tickDevice (σ : Net) (di : Nat) : Net :=
  match σ.devices.get? di with
  | none => σ
  | some d =>
    if d.statusUp then
      (List.range d.interfaces.length).foldl (fun σ' ii => tickIface σ' di ii) σ
    else σ

/-- `tick()`: every device, every interface, at most one packet each. -/
def tick (σ : Net) : Net :=
  (List.range σ.devices.length).foldl tickDevice σ

/-- `send_packet(source_ip, destination_ip, content, ttl)`. -/
def sendPacket (σ : Net) (src dst : IPv4) (content : String) (ttl : Int) : Net :=
  match σ.devices.findIdx? (fun d =>
      d.interfaces.any (fun i => i.ipAddress == some src)) with
  | some di =>
    match σ.devices.get? di with
    | some d =>
      match d.interfaces.findIdx? (fun i => i.ipAddress == some src) with
      | some ii =>
        match d.interfaces.get? ii with
        | some ifc =>
          let pkt : Packet := ⟨src, dst, content, ttl, []⟩
          let ifc' := { ifc with packetQueue := ifc.packetQueue.enqueue pkt }
          let d' := { d with interfaces := d.interfaces.set ii ifc' }
          { σ with
              devices := σ.devices.set di d',
              totalPacketsSent := σ.totalPacketsSent + 1 }
        | none => logError σ "PacketError"
      | none => logError σ "PacketError"
    | none => logError σ "PacketError"
  | none => logError σ "PacketError"

end Net

/-- Are all interface packet queues empty? (Once true, a tick has no packet
to process and the state is a fixed point.) -/
def Net.allQueuesEmpty (σ : Net) : Bool :=
  σ.devices.all (fun d => d.interfaces.all (fun i => i.packetQueue.items.isEmpty))

/-- All interface queues have the default capacity 100 and hold at most
100 packets (the claimed global invariant). -/
def Net.queuesBounded (σ : Net) : Prop :=
  ∀ d ∈ σ.devices, ∀ i ∈ d.interfaces,
    i.packetQueue.maxSize = 100 ∧ i.packetQueue.items.length ≤ 100

/-! ### The two-device scenario of the spec's end-to-end example

Device A (g0/0 = 10.0.0.1) connected to device B (eth0 = 10.0.0.2), devices
added in that order, no routes and no policies configured. -/

/-- A.g0/0 with address 10.0.0.1, connected to B.eth0. -/
def ifaceG00 : Interface :=
  ⟨"g0/0", some ⟨10, 0, 0, 1⟩, true, [("B", "eth0")], ⟨[], 100⟩⟩

/-- B.eth0 with address 10.0.0.2, connected to A.g0/0. -/
def ifaceEth0 : Interface :=
  ⟨"eth0", some ⟨10, 0, 0, 2⟩, true, [("A", "g0/0")], ⟨[], 100⟩⟩

/-- Device A with empty tables. -/
def devA : Device := ⟨"A", true, [ifaceG00], [], AVLRouteTable.empty, TrieNode.empty⟩

/-- Device B with empty tables. -/
def devB : Device := ⟨"B", true, [ifaceEth0], [], AVLRouteTable.empty, TrieNode.empty⟩

/-- The two-device network, A added before B. -/
def twoDevNet : Net := ⟨[devA, devB], 0, 0, 0, 0, [("A", 0), ("B", 0)], []⟩

/-- Modelled from the spec's words (data model §3): the derived network of a
stored route, `address & mask`. -/
def specNetwork (e : RouteEntry) : Nat := e.pfx.toNat32 &&& e.mask.toNat32

/-- Modelled from the spec's words: the claimed ordering key for the route
tree — network ascending, mask length descending, metric ascending. -/
def specKeyLE (e1 e2 : RouteEntry) : Bool :=
  decide (specNetwork e1 < specNetwork e2) ||
    (specNetwork e1 == specNetwork e2 &&
      (decide (IPv4.maskLen e2.mask < IPv4.maskLen e1.mask) ||
        (IPv4.maskLen e1.mask == IPv4.maskLen e2.mask &&
          decide (e1.metric ≤ e2.metric))))

/-- Boolean adjacent-pairs sortedness check used to state ordering claims
in a kernel-computable way. -/
def sortedByB (le : RouteEntry → RouteEntry → Bool) : List RouteEntry → Bool
  | [] => true
  | [_] => true
  | a :: b :: rest => le a b && sortedByB le (b :: rest)

/-! ### Invariant vocabulary for the AVL route table (claim C5) -/

/-- One mutating route-table operation of the claimed operation sequences. -/
inductive TableOp where
  | add (p m nh : IPv4) (metric : Nat)
  | del (p m : IPv4)

/-- Apply one operation (`add_route` / `del_route`). -/
def applyOp (t : AVLRouteTable) : TableOp → AVLRouteTable
  | TableOp.add p m nh mt => t.addRoute p m nh mt
  | TableOp.del p m => t.delRoute p m

/-- The comparison key of a stored route. -/
def keyOfE (e : RouteEntry) : List Nat := keyOfPM e.pfx e.mask

namespace AVLT

/-- The true height of the tree, independent of the cached `height` field. -/
def realHeight : AVLT → Nat
  | nil => 0
  | node _ l r _ => 1 + max (realHeight l) (realHeight r)

/-- Every cached height equals the true height of its subtree. -/
def HeightOK : AVLT → Prop
  | nil => True
  | node _ l r h =>
    h = 1 + max (realHeight l) (realHeight r) ∧ HeightOK l ∧ HeightOK r

/-- Every node's true balance factor lies in {-1, 0, 1}. -/
def BalancedT : AVLT → Prop
  | nil => True
  | node _ l r _ =>
    realHeight l ≤ realHeight r + 1 ∧ realHeight r ≤ realHeight l + 1 ∧
      BalancedT l ∧ BalancedT r

/-- `P` holds of every stored entry. -/
def AllT (P : RouteEntry → Prop) : AVLT → Prop
  | nil => True
  | node e l r _ => P e ∧ AllT P l ∧ AllT P r

/-- The binary-search-tree ordering by the `(prefix, mask)` key. -/
def OrderedT : AVLT → Prop
  | nil => True
  | node e l r _ =>
    AllT (fun x => listLtB (keyOfE x) (keyOfE e) = true) l ∧
      AllT (fun x => listLtB (keyOfE e) (keyOfE x) = true) r ∧
      OrderedT l ∧ OrderedT r

/-- Shape of a subtree that just grew taller by an insertion of key `k`:
its balance is nonzero, and the taller side is the side `k` lies on.
This is the invariant that makes `_insert`'s four key-guarded rotation
cases fire exactly when the balance factor leaves {-1, 0, 1}. -/
def InsGrew (k : List Nat) : AVLT → Prop
  | nil => False
  | node e l r _ =>
    realHeight l ≠ realHeight r ∧
      (realHeight r < realHeight l → listLtB k (keyOfE e) = true) ∧
      (realHeight l < realHeight r → listLtB (keyOfE e) k = true)

/-- Every node's balance factor, as the code computes it from the cached
heights (`_get_balance`), lies in {-1, 0, 1}. -/
def BalOK : AVLT → Prop
  | nil => True
  | node e l r h =>
    (getBalance (node e l r h) = -1 ∨ getBalance (node e l r h) = 0 ∨
      getBalance (node e l r h) = 1) ∧ BalOK l ∧ BalOK r

end AVLT

/-! ## Theorems: PrefixTrie claims -/

theorem childGet_childSet (cs : List (Nat × TrieNode)) (k : Nat) (t : TrieNode) :
    TrieNode.childGet (TrieNode.childSet cs k t) k = some t := by
  induction cs with
  | nil => simp [TrieNode.childSet, TrieNode.childGet]
  | cons p rest ih =>
    by_cases h : p.1 = k
    · simp [TrieNode.childSet, TrieNode.childGet, h]
    · simp only [TrieNode.childSet]
      rw [if_neg (by simpa using h)]
      simpa [TrieNode.childGet, h] using ih

theorem reach_setAt (parts : List Nat) :
    ∀ (root : TrieNode) (u : TrieNode → TrieNode),
      PrefixTrie.reach (PrefixTrie.setAt root parts u) parts =
        u (PrefixTrie.reach root parts) := by
  induction parts with
  | nil => intro root u; rfl
  | cons p ps ih =>
    intro root u
    cases root with
    | mk cs pol e lp lm =>
      simp only [PrefixTrie.setAt, PrefixTrie.reach, TrieNode.children,
        childGet_childSet, Option.getD_some]
      exact ih _ u

theorem getNode_setAt (parts : List Nat) :
    ∀ (root : TrieNode) (u : TrieNode → TrieNode),
      PrefixTrie.getNode (PrefixTrie.setAt root parts u) parts =
        some (u (PrefixTrie.reach root parts)) := by
  induction parts with
  | nil => intro root u; rfl
  | cons p ps ih =>
    intro root u
    cases root with
    | mk cs pol e lp lm =>
      simp only [PrefixTrie.setAt, PrefixTrie.getNode, PrefixTrie.reach,
        TrieNode.children, childGet_childSet, Option.getD_some]
      exact ih _ u

theorem lookupGo_lastSome (parts : List Nat) :
    ∀ (node : TrieNode) (best : Option Policy),
      PrefixTrie.lookupGo node parts best =
        match PrefixTrie.lastSome (PrefixTrie.walkedPolicies node parts) with
        | some p => some p
        | none => best := by
  induction parts with
  | nil => intro node best; rfl
  | cons p ps ih =>
    intro node best
    cases h : TrieNode.childGet node.children p with
    | none =>
      simp [PrefixTrie.lookupGo, PrefixTrie.walkedPolicies, h, PrefixTrie.lastSome]
    | some child =>
      simp only [PrefixTrie.lookupGo, PrefixTrie.walkedPolicies, h]
      rw [ih]
      simp only [PrefixTrie.lastSome]
      cases PrefixTrie.lastSome (PrefixTrie.walkedPolicies child ps) <;>
        cases child.policy <;> rfl

/-- Claim C6: `lookup_policy` returns the policy of the deepest
policy-bearing node on the walked path (or none when no visited node
carries one), and on the concrete inheritance scenario: after
`set_policy(10.0.0.0/8, Block)`, `lookup_policy(10.1.2.3)` is Block; after
additionally `set_policy(10.1.0.0/16, MinTTL 3)`, `lookup_policy(10.1.2.3)`
is MinTTL 3 while `lookup_policy(10.2.3.4)` is still Block. -/
theorem claim_C6_lookup_policy_inheritance :
    (∀ (t : TrieNode) (ip : IPv4),
      PrefixTrie.lookupPolicy t ip = PrefixTrie.deepestPolicy t ip.quadList) ∧
    (let t1 := PrefixTrie.setPolicy TrieNode.empty ⟨10, 0, 0, 0⟩
        ⟨255, 0, 0, 0⟩ PolicyKind.block
     let t2 := PrefixTrie.setPolicy t1 ⟨10, 1, 0, 0⟩ ⟨255, 255, 0, 0⟩
        (PolicyKind.ttlMin 3)
     PrefixTrie.lookupPolicy t1 ⟨10, 1, 2, 3⟩ = some ⟨true, none⟩ ∧
     PrefixTrie.lookupPolicy t2 ⟨10, 1, 2, 3⟩ = some ⟨false, some 3⟩ ∧
     PrefixTrie.lookupPolicy t2 ⟨10, 2, 3, 4⟩ = some ⟨true, none⟩) := by
  constructor
  · intro t ip
    unfold PrefixTrie.lookupPolicy PrefixTrie.deepestPolicy
    rw [lookupGo_lastSome]
    cases PrefixTrie.lastSome (PrefixTrie.walkedPolicies t ip.quadList) <;> rfl
  · exact ⟨by decide, by decide, by decide⟩

/-- Claim C4, counterexample: after `set_policy(10.0.0.0/8, Block)` followed
by `set_policy(10.0.0.0/8, MinTTL 5)`, `lookup_policy(10.1.2.3)` still
reports the Block flag — the earlier Block is observable, refuting the
claimed overwrite. -/
theorem claim_C4_counterexample :
    (PrefixTrie.lookupPolicy
      (PrefixTrie.setPolicy
        (PrefixTrie.setPolicy TrieNode.empty ⟨10, 0, 0, 0⟩ ⟨255, 0, 0, 0⟩
          PolicyKind.block)
        ⟨10, 0, 0, 0⟩ ⟨255, 0, 0, 0⟩ (PolicyKind.ttlMin 5))
      ⟨10, 1, 2, 3⟩).map Policy.block = some true := by decide

/-- Claim C4, amended: a second `set_policy` on the same prefix/mask with a
different kind merges into the policy dict at the terminal node instead of
overwriting it: after Block then MinTTL(n) the terminal node stores both
(`block = true` and `ttl-min = n`), for every starting trie, and on the
concrete scenario the lookup observes the merged policy. -/
theorem claim_C4_amended :
    (∀ (root : TrieNode) (p m : IPv4) (n : Nat),
      (PrefixTrie.getNode
        (PrefixTrie.setPolicy (PrefixTrie.setPolicy root p m PolicyKind.block)
          p m (PolicyKind.ttlMin n))
        (PrefixTrie.walkParts p m)).map TrieNode.policy =
        some (some ⟨true, some n⟩)) ∧
    PrefixTrie.lookupPolicy
      (PrefixTrie.setPolicy
        (PrefixTrie.setPolicy TrieNode.empty ⟨10, 0, 0, 0⟩ ⟨255, 0, 0, 0⟩
          PolicyKind.block)
        ⟨10, 0, 0, 0⟩ ⟨255, 0, 0, 0⟩ (PolicyKind.ttlMin 5))
      ⟨10, 1, 2, 3⟩ = some ⟨true, some 5⟩ := by
  constructor
  · intro root p m n
    simp only [PrefixTrie.setPolicy, getNode_setAt, reach_setAt, Option.map_some]
    cases PrefixTrie.reach root (PrefixTrie.walkParts p m) with
    | mk cs pol e lp lm =>
      cases pol <;> rfl
  · decide

/-! ## Theorems: route-table lookup (C1) and ordering (C5) -/

/-- Claim C1, code-bug evidence: with routes 10.1.0.0/16 via B,
10.1.2.1/32 via C and 10.1.2.2/32 via D added in that order, both route
tables of the repository store the covering /16 route (it matches
10.1.2.3 under its mask), yet `lookup(10.1.2.3)` returns none in both,
because the search descends by key comparison and never visits the left
subtree holding the /16 route. -/
theorem claim_C1_lookup_misses_covering_route :
    (let tbl :=
      ((AVLRouteTable.empty.addRoute ⟨10, 1, 0, 0⟩ ⟨255, 255, 0, 0⟩ ⟨1, 1, 1, 2⟩ 1
        ).addRoute ⟨10, 1, 2, 1⟩ ⟨255, 255, 255, 255⟩ ⟨1, 1, 1, 3⟩ 1
        ).addRoute ⟨10, 1, 2, 2⟩ ⟨255, 255, 255, 255⟩ ⟨1, 1, 1, 4⟩ 1
     tbl.lookup ⟨10, 1, 2, 3⟩ = none ∧
     (⟨⟨10, 1, 0, 0⟩, ⟨255, 255, 0, 0⟩, ⟨1, 1, 1, 2⟩, 1⟩ : RouteEntry) ∈ tbl.inorder ∧
     IPv4.ipMatch (IPv4.toBits ⟨10, 1, 2, 3⟩) (IPv4.toBits ⟨10, 1, 0, 0⟩)
        (IPv4.maskLen ⟨255, 255, 0, 0⟩) = true) ∧
    (let t :=
      AVLM.insertM
        (AVLM.insertM
          (AVLM.insertM AVLM.nil ⟨⟨10, 1, 0, 0⟩, ⟨255, 255, 0, 0⟩, ⟨1, 1, 1, 2⟩, 1⟩)
          ⟨⟨10, 1, 2, 1⟩, ⟨255, 255, 255, 255⟩, ⟨1, 1, 1, 3⟩, 1⟩)
        ⟨⟨10, 1, 2, 2⟩, ⟨255, 255, 255, 255⟩, ⟨1, 1, 1, 4⟩, 1⟩
     AVLM.lookupM t (IPv4.toNat32 ⟨10, 1, 2, 3⟩) = none ∧
     IPv4.toNat32 ⟨10, 1, 2, 3⟩ &&&
        RouteM.maskInt ⟨⟨10, 1, 0, 0⟩, ⟨255, 255, 0, 0⟩, ⟨1, 1, 1, 2⟩, 1⟩ =
        RouteM.network ⟨⟨10, 1, 0, 0⟩, ⟨255, 255, 0, 0⟩, ⟨1, 1, 1, 2⟩, 1⟩) := by
  exact ⟨⟨by decide, by decide, by decide⟩, by decide, by decide⟩

/-- Claim C5, counterexample: after `add_route(10.0.0.0, 255.255.0.0, B, 1)`
then `add_route(10.0.0.0, 255.0.0.0, A, 1)`, the in-order traversal is
[10.0.0.0/8, 10.0.0.0/16], which is not sorted by the claimed key
(equal networks would need the /16 mask first). -/
theorem claim_C5_counterexample :
    sortedByB specKeyLE
        (((AVLRouteTable.empty.addRoute ⟨10, 0, 0, 0⟩ ⟨255, 255, 0, 0⟩ ⟨1, 1, 1, 2⟩ 1
          ).addRoute ⟨10, 0, 0, 0⟩ ⟨255, 0, 0, 0⟩ ⟨1, 1, 1, 1⟩ 1).inorder) = false := by
  decide

/-! ## Theorems: forwarding-engine claims (C2, C3) -/

theorem foldl_net_fixed {α : Type} (f : Net → α → Net) (l : List α) (σ : Net)
    (h : ∀ x ∈ l, f σ x = σ) : l.foldl f σ = σ := by
  induction l with
  | nil => rfl
  | cons a as ih =>
    rw [List.foldl_cons, h a (by simp)]
    exact ih (fun x hx => h x (by simp [hx]))

theorem tickIface_of_empty (σ : Net) (di ii : Nat)
    (h : Net.allQueuesEmpty σ = true) : Net.tickIface σ di ii = σ := by
  cases hd : σ.devices[di]? with
  | none => simp [Net.tickIface, hd]
  | some d =>
    cases hi : d.interfaces[ii]? with
    | none => simp [Net.tickIface, hd, hi]
    | some ifc =>
      have hdm : d ∈ σ.devices := List.getElem?_mem hd
      have him : ifc ∈ d.interfaces := List.getElem?_mem hi
      have hq : ifc.packetQueue.items = [] := by
        have h1 := (List.all_eq_true.mp h) d hdm
        have h2 := (List.all_eq_true.mp h1) ifc him
        simpa [List.isEmpty_iff] using h2
      simp [Net.tickIface, hd, hi, hq]

theorem tick_of_empty (σ : Net) (h : Net.allQueuesEmpty σ = true) :
    Net.tick σ = σ := by
  unfold Net.tick
  refine foldl_net_fixed _ _ _ (fun di _ => ?_)
  cases hd : σ.devices[di]? with
  | none => simp [Net.tickDevice, hd]
  | some d =>
    by_cases hs : d.statusUp = true
    · simp only [Net.tickDevice, List.get?_eq_getElem?, hd, hs, if_true]
      exact foldl_net_fixed (fun σ' ii => Net.tickIface σ' di ii)
        (List.range d.interfaces.length) σ (fun ii _ => tickIface_of_empty σ di ii h)
    · simp [Net.tickDevice, hd, hs]

/-- Claim C2, code-bug evidence: in the A–B scenario with
send(10.0.0.1 → 10.0.0.2, "hello", ttl 5), a single tick already delivers
the packet at B — B appears after A in device order, so the same tick
dequeues what A's processing just enqueued.  After tick one: delivered = 1,
hop-sum = 2, B's history holds the packet with path [A, B] and ttl 3, and
every queue is empty (nothing awaits a second tick; B's activity is already
1). -/
theorem claim_C2_delivered_in_first_tick :
    (let σ := Net.tick (twoDevNet.sendPacket ⟨10, 0, 0, 1⟩ ⟨10, 0, 0, 2⟩ "hello" 5)
     σ.totalPacketsDelivered = 1 ∧
     σ.totalPacketsDropped = 0 ∧
     σ.hopsSum = 2 ∧
     σ.devices.map Device.receivedStack =
       [[], [⟨⟨10, 0, 0, 1⟩, ⟨10, 0, 0, 2⟩, "hello", 3, ["A", "B"]⟩]] ∧
     Net.allQueuesEmpty σ = true ∧
     σ.deviceActivity = [("A", 1), ("B", 1)]) := by
  exact ⟨by decide, by decide, by decide, by decide, by decide, by decide⟩

/-- Claim C3, counterexample: with ttl = 1 in the A–B scenario, the TTL
drop already happens during the first tick at device A (the packet's only
hop): the dropped counter is 1 while B has processed nothing (activity 0)
and no packet was ever forwarded to B's queue, so no drop happens "on the
second hop". -/
theorem claim_C3_counterexample :
    (let σ := Net.tick (twoDevNet.sendPacket ⟨10, 0, 0, 1⟩ ⟨10, 0, 0, 2⟩ "hello" 1)
     σ.totalPacketsDropped = 1 ∧
     σ.deviceActivity = [("A", 1), ("B", 0)] ∧
     Net.allQueuesEmpty σ = true) := by
  exact ⟨by decide, by decide, by decide⟩

/-- Claim C3, amended: the ttl = 1 packet is dropped for TTL expiry at the
source device A right after its first (and only) hop, during the first
tick; the dropped counter increments by exactly 1, the error log records
exactly one PacketDropped (TTL) entry, no receive history ever holds the
packet, and the resulting state is a fixed point of tick (every all-empty
queue state is), so the packet never appears later either. -/
theorem claim_C3_amended :
    ((let σ := Net.tick (twoDevNet.sendPacket ⟨10, 0, 0, 1⟩ ⟨10, 0, 0, 2⟩ "hello" 1)
      σ.totalPacketsDropped = 1 ∧
      σ.totalPacketsDelivered = 0 ∧
      σ.errorLog = ["PacketDropped"] ∧
      σ.devices.map Device.receivedStack = [[], []] ∧
      Net.allQueuesEmpty σ = true) ∧
     ∀ σ' : Net, Net.allQueuesEmpty σ' = true → Net.tick σ' = σ') := by
  exact ⟨⟨by decide, by decide, by decide, by decide, by decide⟩,
    fun σ' h => tick_of_empty σ' h⟩

/-- Witness for the quiescence hypothesis of `claim_C3_amended`: the
two-device network with empty queues is a concrete fixed point. -/
theorem claim_C3_amended_witness :
    Net.allQueuesEmpty twoDevNet = true ∧ Net.tick twoDevNet = twoDevNet :=
  ⟨by decide, claim_C3_amended.2 twoDevNet (by decide)⟩

/-! ## Theorems: interface queue bound (C9) -/

theorem foldl_net_preserve {α : Type} (P : Net → Prop) (f : Net → α → Net)
    (l : List α) (σ : Net) (hstep : ∀ σ' x, P σ' → P (f σ' x)) (h0 : P σ) :
    P (l.foldl f σ) := by
  induction l generalizing σ with
  | nil => exact h0
  | cons a as ih => exact ih (f σ a) (hstep σ a h0)

theorem qb_of_devices_eq {σ σ' : Net} (h : σ'.devices = σ.devices)
    (hq : Net.queuesBounded σ) : Net.queuesBounded σ' := by
  intro d hd
  exact hq d (h ▸ hd)

theorem enqueue_bounded (q : PQueue) (p : Packet) (hm : q.maxSize = 100)
    (hl : q.items.length ≤ 100) :
    (q.enqueue p).maxSize = 100 ∧ (q.enqueue p).items.length ≤ 100 := by
  unfold PQueue.enqueue
  by_cases h : q.maxSize ≤ q.items.length
  · simp only [h, if_true]
    refine ⟨hm, ?_⟩
    have : q.items.length ≠ 0 := by omega
    simp [List.length_tail]
    omega
  · simp only [h, if_false]
    refine ⟨hm, ?_⟩
    simp
    omega

theorem qb_enqueueAt (σ : Net) (dn iname : String) (p : Packet)
    (hq : Net.queuesBounded σ) : Net.queuesBounded (Net.enqueueAt σ dn iname p) := by
  intro d' hd' i' hi'
  simp only [Net.enqueueAt, List.mem_map] at hd'
  obtain ⟨d, hd, hfd⟩ := hd'
  by_cases hn : (d.name == dn) = true
  · subst hfd
    simp only [hn, if_true] at hi' ⊢
    simp only [List.mem_map] at hi'
    obtain ⟨i, hi, hfi⟩ := hi'
    by_cases hni : (i.name == iname) = true
    · subst hfi
      simp only [hni, if_true]
      have := hq d hd i hi
      exact ⟨(enqueue_bounded _ p this.1 this.2).1,
        (enqueue_bounded _ p this.1 this.2).2⟩
    · subst hfi
      simp only [hni, if_false]
      exact hq d hd i hi
  · subst hfd
    simp only [hn, if_false] at hi' ⊢
    exact hq d hd i' hi'

theorem qb_setQueueAt (σ : Net) (di ii : Nat) (items : List Packet)
    (hlen : items.length ≤ 100) (hq : Net.queuesBounded σ) :
    Net.queuesBounded (Net.setQueueAt σ di ii items) := by
  cases hd : σ.devices[di]? with
  | none => simpa [Net.setQueueAt, List.get?_eq_getElem?, hd] using hq
  | some d =>
    cases hi : d.interfaces[ii]? with
    | none => simpa [Net.setQueueAt, List.get?_eq_getElem?, hd, hi] using hq
    | some ifc =>
      have hdm : d ∈ σ.devices := List.getElem?_mem hd
      have him : ifc ∈ d.interfaces := List.getElem?_mem hi
      simp only [Net.setQueueAt, List.get?_eq_getElem?, hd, hi]
      intro d' hd' i' hi'
      rcases List.mem_or_eq_of_mem_set hd' with h | h
      · exact hq d' h i' hi'
      · subst h
        rcases List.mem_or_eq_of_mem_set hi' with h2 | h2
        · exact hq d hdm i' h2
        · subst h2
          exact ⟨(hq d hdm ifc him).1, hlen⟩

theorem qb_deliverAt (σ : Net) (di : Nat) (p : Packet)
    (hq : Net.queuesBounded σ) : Net.queuesBounded (Net.deliverAt σ di p) := by
  cases hd : σ.devices[di]? with
  | none => simpa [Net.deliverAt, List.get?_eq_getElem?, hd] using hq
  | some d =>
    have hdm : d ∈ σ.devices := List.getElem?_mem hd
    simp only [Net.deliverAt, List.get?_eq_getElem?, hd]
    intro d' hd' i' hi'
    rcases List.mem_or_eq_of_mem_set hd' with h | h
    · exact hq d' h i' hi'
    · subst h
      exact hq d hdm i' hi'

theorem qb_dropWith (σ : Net) (k : String) (hq : Net.queuesBounded σ) :
    Net.queuesBounded (Net.dropWith σ k) :=
  qb_of_devices_eq rfl hq

theorem qb_forwardTo (σ : Net) (ref : String × String) (p : Packet)
    (hq : Net.queuesBounded σ) : Net.queuesBounded (Net.forwardTo σ ref p) := by
  cases hr : Net.ifaceAt σ ref.1 ref.2 with
  | none =>
    simp only [Net.forwardTo, hr]
    exact qb_dropWith σ _ hq
  | some nIfc =>
    by_cases hs : nIfc.statusUp = true
    · simp only [Net.forwardTo, hr, hs, if_true]
      exact qb_enqueueAt σ ref.1 ref.2 p hq
    · simp only [Net.forwardTo, hr, hs, if_false]
      exact qb_dropWith σ _ hq

theorem qb_hopPhase (σ : Net) (di : Nat) (d : Device) (ifc : Interface)
    (pkt : Packet) (hq : Net.queuesBounded σ) :
    Net.queuesBounded (Net.hopPhase σ di d ifc pkt) := by
  by_cases h1 : (ifc.ipAddress == some (pkt.hop d.name).destinationIp) = true
  · simp only [Net.hopPhase, h1, if_true]
    exact qb_deliverAt σ di _ hq
  · by_cases h2 : (pkt.hop d.name).isExpired = true
    · simp only [Net.hopPhase, h1, h2, if_true, if_false]
      exact qb_dropWith σ _ hq
    · cases hr : d.routeTable.lookup (pkt.hop d.name).destinationIp with
      | some route =>
        cases hn : Net.findNeighborRef σ ifc.neighbors route.nextHop with
        | some ref =>
          simp only [Net.hopPhase, h1, h2, if_false, hr, hn]
          exact qb_forwardTo σ ref _ hq
        | none =>
          simp only [Net.hopPhase, h1, h2, if_false, hr, hn]
          exact qb_dropWith σ _ hq
      | none =>
        cases hn : Net.findNeighborRef σ ifc.neighbors (pkt.hop d.name).destinationIp with
        | some ref =>
          simp only [Net.hopPhase, h1, h2, if_false, hr, hn]
          exact qb_forwardTo σ ref _ hq
        | none =>
          simp only [Net.hopPhase, h1, h2, if_false, hr, hn]
          exact qb_dropWith σ _ hq

theorem qb_processPacket (σ : Net) (di ii : Nat) (pkt : Packet)
    (hq : Net.queuesBounded σ) :
    Net.queuesBounded (Net.processPacket σ di ii pkt) := by
  cases hd : σ.devices[di]? with
  | none => simpa [Net.processPacket, List.get?_eq_getElem?, hd] using hq
  | some d =>
    cases hi : d.interfaces[ii]? with
    | none => simpa [Net.processPacket, List.get?_eq_getElem?, hd, hi] using hq
    | some ifc =>
      cases hp : PrefixTrie.lookupPolicy d.prefixTrie pkt.destinationIp with
      | none =>
        simp only [Net.processPacket, List.get?_eq_getElem?, hd, hi, hp]
        exact qb_hopPhase σ di d ifc pkt hq
      | some pol =>
        by_cases hb : pol.block = true
        · simp only [Net.processPacket, List.get?_eq_getElem?, hd, hi, hp, hb, if_true]
          exact qb_dropWith σ _ hq
        · cases hm : pol.ttlMin with
          | none =>
            simp only [Net.processPacket, List.get?_eq_getElem?, hd, hi, hp, hb,
              if_false, hm]
            exact qb_hopPhase σ di d ifc pkt hq
          | some m =>
            by_cases ht : pkt.ttl < (m : Int)
            · simp only [Net.processPacket, List.get?_eq_getElem?, hd, hi, hp, hb,
                if_false, hm, ht, if_true]
              exact qb_dropWith σ _ hq
            · simp only [Net.processPacket, List.get?_eq_getElem?, hd, hi, hp, hb,
                if_false, hm, ht]
              exact qb_hopPhase σ di d ifc pkt hq

theorem qb_tickIface (σ : Net) (di ii : Nat) (hq : Net.queuesBounded σ) :
    Net.queuesBounded (Net.tickIface σ di ii) := by
  cases hd : σ.devices[di]? with
  | none => simpa [Net.tickIface, hd] using hq
  | some d =>
    cases hi : d.interfaces[ii]? with
    | none => simpa [Net.tickIface, hd, hi] using hq
    | some ifc =>
      have hdm : d ∈ σ.devices := List.getElem?_mem hd
      have him : ifc ∈ d.interfaces := List.getElem?_mem hi
      by_cases hs : ifc.statusUp = true
      · cases hqitems : ifc.packetQueue.items with
        | nil => simpa [Net.tickIface, hd, hi, hs, hqitems] using hq
        | cons pkt rest =>
          simp only [Net.tickIface, List.get?_eq_getElem?, hd, hi, hs, hqitems,
            if_true]
          have hrest : rest.length ≤ 100 := by
            have := (hq d hdm ifc him).2
            rw [hqitems] at this
            simp at this
            omega
          have hq1 : Net.queuesBounded (Net.setQueueAt σ di ii rest) :=
            qb_setQueueAt σ di ii rest hrest hq
          have hq2 : Net.queuesBounded
              { Net.setQueueAt σ di ii rest with
                  deviceActivity := Net.bumpActivity
                    (Net.setQueueAt σ di ii rest).deviceActivity d.name } :=
            qb_of_devices_eq rfl hq1
          exact qb_processPacket _ di ii pkt hq2
      · simpa [Net.tickIface, hd, hi, hs] using hq

theorem qb_tick (σ : Net) (hq : Net.queuesBounded σ) :
    Net.queuesBounded (Net.tick σ) := by
  unfold Net.tick
  refine foldl_net_preserve Net.queuesBounded Net.tickDevice _ σ ?_ hq
  intro σ' di hq'
  cases hd : σ'.devices[di]? with
  | none => simpa [Net.tickDevice, hd] using hq'
  | some d =>
    by_cases hs : d.statusUp = true
    · simp only [Net.tickDevice, List.get?_eq_getElem?, hd, hs, if_true]
      exact foldl_net_preserve Net.queuesBounded _ _ σ'
        (fun σ'' ii h => qb_tickIface σ'' di ii h) hq'
    · simpa [Net.tickDevice, hd, hs] using hq'

theorem qb_sendPacket (σ : Net) (src dst : IPv4) (c : String) (ttl : Int)
    (hq : Net.queuesBounded σ) :
    Net.queuesBounded (Net.sendPacket σ src dst c ttl) := by
  cases hf : σ.devices.findIdx? (fun d => d.interfaces.any (fun i => i.ipAddress == some src)) with
  | none =>
    simp only [Net.sendPacket, hf]
    exact qb_of_devices_eq rfl hq
  | some di =>
    cases hd : σ.devices[di]? with
    | none =>
      simp only [Net.sendPacket, List.get?_eq_getElem?, hf, hd]
      exact qb_of_devices_eq rfl hq
    | some d =>
      cases hfi : d.interfaces.findIdx? (fun i => i.ipAddress == some src) with
      | none =>
        simp only [Net.sendPacket, List.get?_eq_getElem?, hf, hd, hfi]
        exact qb_of_devices_eq rfl hq
      | some ii =>
        cases hi : d.interfaces[ii]? with
        | none =>
          simp only [Net.sendPacket, List.get?_eq_getElem?, hf, hd, hfi, hi]
          exact qb_of_devices_eq rfl hq
        | some ifc =>
          have hdm : d ∈ σ.devices := List.getElem?_mem hd
          have him : ifc ∈ d.interfaces := List.getElem?_mem hi
          simp only [Net.sendPacket, List.get?_eq_getElem?, hf, hd, hfi, hi]
          intro d' hd' i' hi'
          rcases List.mem_or_eq_of_mem_set hd' with h | h
          · exact hq d' h i' hi'
          · subst h
            rcases List.mem_or_eq_of_mem_set hi' with h2 | h2
            · exact hq d hdm i' h2
            · subst h2
              have := hq d hdm ifc him
              exact ⟨(enqueue_bounded _ _ this.1 this.2).1,
                (enqueue_bounded _ _ this.1 this.2).2⟩

/-- Claim C9: interface queues are bounded by 100 at all times — `tick` and
`send_packet` preserve the bound for every network state — and an
`enqueue_packet` onto a queue already holding 100 packets silently dequeues
and discards the oldest packet before appending the new one: the resulting
queue is `tail ++ [p]`, still of length 100, and enqueuing through an
interface reference never changes the dropped counter or the error log. -/
theorem claim_C9_queue_bound :
    (∀ (q : PQueue) (p : Packet), q.maxSize = 100 → q.items.length = 100 →
      (q.enqueue p).items = q.items.tail ++ [p] ∧
        (q.enqueue p).items.length = 100) ∧
    (∀ (σ : Net) (dn iname : String) (p : Packet),
      (Net.enqueueAt σ dn iname p).totalPacketsDropped = σ.totalPacketsDropped ∧
        (Net.enqueueAt σ dn iname p).errorLog = σ.errorLog) ∧
    (∀ σ : Net, Net.queuesBounded σ → Net.queuesBounded (Net.tick σ)) ∧
    (∀ (σ : Net) (src dst : IPv4) (c : String) (ttl : Int),
      Net.queuesBounded σ → Net.queuesBounded (Net.sendPacket σ src dst c ttl)) := by
  refine ⟨?_, ?_, fun σ h => qb_tick σ h, fun σ a b c t h => qb_sendPacket σ a b c t h⟩
  · intro q p hm hl
    have hle : q.maxSize ≤ q.items.length := by omega
    unfold PQueue.enqueue
    rw [if_pos hle]
    refine ⟨rfl, ?_⟩
    have : q.items.length ≠ 0 := by omega
    simp [List.length_tail]
    omega
  · intro σ dn iname p
    exact ⟨rfl, rfl⟩

/-- Witness for the hypotheses of `claim_C9_queue_bound`: a concrete full
queue is rotated, and the two-device network's bound survives a tick. -/
theorem claim_C9_queue_bound_witness :
    (let q : PQueue :=
      ⟨List.replicate 100 (⟨⟨0, 0, 0, 0⟩, ⟨0, 0, 0, 0⟩, "x", 1, []⟩ : Packet), 100⟩
     let p : Packet := ⟨⟨1, 1, 1, 1⟩, ⟨2, 2, 2, 2⟩, "y", 5, []⟩
     (q.enqueue p).items = q.items.tail ++ [p]) ∧
    Net.queuesBounded (Net.tick twoDevNet) := by
  constructor
  · exact (claim_C9_queue_bound.1 _ _ rfl (by simp)).1
  · refine claim_C9_queue_bound.2.2.1 twoDevNet ?_
    intro d hd i hi
    fin_cases hd <;> fin_cases hi <;> exact ⟨rfl, by simp [ifaceG00, ifaceEth0, devA, devB]⟩

/-! ## Theorems: B-tree first split (C7) -/

theorem insPos_le (k : String) (keys : List String) :
    BTreeIdx.insPos k keys ≤ keys.length := by
  unfold BTreeIdx.insPos
  omega

theorem keysOfE_length (es : List (String × String)) :
    (BTNode.keysOfE es).length = es.length := by
  simp [BTNode.keysOfE]

theorem insert_leaf_nonfull (t : BTreeIndex) (k v : String)
    (es : List (String × String)) (ho : t.order = 4)
    (hr : t.root = BTNode.mk es [] true) (hlen : es.length < 7) :
    ∃ es', (t.insert k v).root = BTNode.mk es' [] true ∧
      es'.length = es.length + 1 ∧ (t.insert k v).splits = t.splits ∧
      (t.insert k v).order = 4 := by
  have hfull : ¬ (t.root.entries.length = 2 * t.order - 1) := by
    rw [hr, ho]
    simp [BTNode.entries]
    omega
  unfold BTreeIndex.insert
  rw [if_neg hfull, hr]
  have hdep : depthB (BTNode.mk es [] true) = 1 := by
    simp [depthB, depthList]
  rw [hdep]
  refine ⟨es.insertIdx (BTreeIdx.insPos k (BTNode.keysOfE es)) (k, v), ?_, ?_, ?_, ho⟩
  · simp [BTreeIdx.insertNF]
  · have hle : BTreeIdx.insPos k (BTNode.keysOfE es) ≤ es.length := by
      have := insPos_le k (BTNode.keysOfE es)
      rwa [keysOfE_length] at this
    rw [List.length_insertIdx _ _ hle]
  · simp [BTreeIdx.insertNF]

theorem foldIns_leaf (ps : List (String × String)) :
    ∀ (t : BTreeIndex) (es : List (String × String)), t.order = 4 →
      t.root = BTNode.mk es [] true → es.length + ps.length ≤ 7 →
      ∃ es', (ps.foldl (fun t p => t.insert p.1 p.2) t).root = BTNode.mk es' [] true ∧
        es'.length = es.length + ps.length ∧
        (ps.foldl (fun t p => t.insert p.1 p.2) t).splits = t.splits ∧
        (ps.foldl (fun t p => t.insert p.1 p.2) t).order = 4 := by
  induction ps with
  | nil =>
    intro t es ho hr hb
    exact ⟨es, hr, by simp, rfl, ho⟩
  | cons p ps ih =>
    intro t es ho hr hb
    obtain ⟨es1, hr1, hl1, hs1, ho1⟩ :=
      insert_leaf_nonfull t p.1 p.2 es ho hr (by simp at hb; omega)
    obtain ⟨es', hr', hl', hs', ho'⟩ :=
      ih (t.insert p.1 p.2) es1 ho1 hr1 (by simp at hb ⊢; omega)
    refine ⟨es', by simpa using hr', by simp at hb ⊢; omega, ?_, by simpa using ho'⟩
    simp only [List.foldl_cons] at hs' ⊢
    rw [hs', hs1]

theorem insertNF_leaf_step (k v : String) (es : List (String × String)) :
    BTreeIdx.insertNF 4 1 (BTNode.mk es [] true) k v =
      (BTNode.mk (es.insertIdx (BTreeIdx.insPos k (BTNode.keysOfE es)) (k, v))
        [] true, 0) := by
  rfl

theorem insertNF_two_small_children (k v : String) (med : String × String)
    (yes zes : List (String × String)) (hyl : yes.length = 3)
    (hzl : zes.length = 3) :
    ∃ cs', BTreeIdx.insertNF 4 2
        (BTNode.mk [med] [BTNode.mk yes [] true, BTNode.mk zes [] true] false)
        k v =
      (BTNode.mk [med] cs' false, 0) ∧ cs'.length = 2 := by
  have hi2 : BTreeIdx.insPos k (BTNode.keysOfE [med]) ≤ 1 := by
    have := insPos_le k (BTNode.keysOfE [med])
    simpa [BTNode.keysOfE] using this
  have hfull : BTreeIdx.childFullAt 4
      [BTNode.mk yes [] true, BTNode.mk zes [] true]
      (BTreeIdx.insPos k (BTNode.keysOfE [med])) = false := by
    rcases Nat.le_one_iff_eq_zero_or_eq_one.mp hi2 with h0 | h1
    · simp [BTreeIdx.childFullAt, h0, BTNode.entries, hyl]
    · simp [BTreeIdx.childFullAt, h1, BTNode.entries, hzl]
  rcases Nat.le_one_iff_eq_zero_or_eq_one.mp hi2 with h0 | h1
  · refine ⟨[(BTreeIdx.insertNF 4 1 (BTNode.mk yes [] true) k v).1,
      BTNode.mk zes [] true], ?_, rfl⟩
    show BTreeIdx.insertNF 4 (1 + 1)
        (BTNode.mk [med] [BTNode.mk yes [] true, BTNode.mk zes [] true] false)
        k v = _
    have hfull0 := h0 ▸ hfull
    rw [BTreeIdx.insertNF]
    simp only [h0, hfull0, Bool.false_eq_true, if_false, List.get?_eq_getElem?]
    simp [insertNF_leaf_step]
  · refine ⟨[BTNode.mk yes [] true,
      (BTreeIdx.insertNF 4 1 (BTNode.mk zes [] true) k v).1], ?_, rfl⟩
    show BTreeIdx.insertNF 4 (1 + 1)
        (BTNode.mk [med] [BTNode.mk yes [] true, BTNode.mk zes [] true] false)
        k v = _
    have hfull1 := h1 ▸ hfull
    rw [BTreeIdx.insertNF]
    simp only [h1, hfull1, Bool.false_eq_true, if_false, List.get?_eq_getElem?]
    simp [insertNF_leaf_step]

theorem insert_full_leaf_root (t : BTreeIndex) (k v : String)
    (es : List (String × String)) (ho : t.order = 4)
    (hr : t.root = BTNode.mk es [] true) (hlen : es.length = 7) :
    (t.insert k v).splits = t.splits + 1 ∧
    (t.insert k v).root.leafFlag = false ∧
    (t.insert k v).root.children.length = 2 ∧
    (t.insert k v).root.entries.length = 1 := by
  have hfull : t.root.entries.length = 2 * t.order - 1 := by
    rw [hr, ho]
    simpa [BTNode.entries] using hlen
  unfold BTreeIndex.insert
  rw [if_pos hfull, hr, ho]
  obtain ⟨med, hmed⟩ : ∃ med, es[3]? = some med := by
    have h3 : 3 < es.length := by omega
    exact ⟨es[3], by simp [List.getElem?_eq_getElem h3]⟩
  have hsplit : BTreeIdx.splitChild 4 (BTNode.mk [] [BTNode.mk es [] true] false) 0 =
      BTNode.mk [med]
        [BTNode.mk (es.take 3) [] true, BTNode.mk ((es.drop 4).take 3) [] true]
        false := by
    unfold BTreeIdx.splitChild
    simp [hmed, List.insertIdx]
  rw [hsplit]
  have hdep : depthB (BTNode.mk [med]
      [BTNode.mk (es.take 3) [] true, BTNode.mk ((es.drop 4).take 3) [] true]
      false) = 2 := by
    simp [depthB, depthList]
  obtain ⟨cs', hnf, hcs⟩ := insertNF_two_small_children k v med
    (es.take 3) ((es.drop 4).take 3) (by simp; omega) (by simp; omega)
  simp only [hdep, hnf]
  simp [BTNode.leafFlag, BTNode.children, BTNode.entries, hcs]

/-- Claim C7: from an empty `BTreeIndex(order 4)`, the first 7 distinct keys
leave a full 7-key leaf root with no splits; the eighth insertion first
splits that root exactly once — creating a new non-leaf root with one key
owning the two halves — and the cumulative split counter is 1. -/
theorem claim_C7_single_root_split :
    ∀ ps : List (String × String), ps.length = 8 → (ps.map Prod.fst).Nodup →
      (let t7 := (ps.take 7).foldl (fun t p => t.insert p.1 p.2) (BTreeIndex.new 4)
       let t8 := ps.foldl (fun t p => t.insert p.1 p.2) (BTreeIndex.new 4)
       t7.root.leafFlag = true ∧ t7.root.entries.length = 7 ∧ t7.splits = 0 ∧
       t8.splits = 1 ∧ t8.root.leafFlag = false ∧
       t8.root.children.length = 2 ∧ t8.root.entries.length = 1) := by
  intro ps h8 hnd
  obtain ⟨es7, hr7, hl7, hs7, ho7⟩ :=
    foldIns_leaf (ps.take 7) (BTreeIndex.new 4) [] rfl rfl (by simp [h8])
  have hl7' : es7.length = 7 := by
    rw [hl7]
    simp [h8]
  obtain ⟨p8, hdrop⟩ : ∃ p8, ps.drop 7 = [p8] := by
    have hlen1 : (ps.drop 7).length = 1 := by simp [h8]
    cases h : ps.drop 7 with
    | nil => rw [h] at hlen1; simp at hlen1
    | cons a l =>
      cases l with
      | nil => exact ⟨a, rfl⟩
      | cons b m => rw [h] at hlen1; simp at hlen1
  have hfold : ps.foldl (fun t p => t.insert p.1 p.2) (BTreeIndex.new 4) =
      ((ps.take 7).foldl (fun t p => t.insert p.1 p.2) (BTreeIndex.new 4)).insert
        p8.1 p8.2 := by
    conv_lhs => rw [← List.take_append_drop 7 ps]
    rw [List.foldl_append, hdrop]
    simp
  obtain ⟨hS, hL, hC, hE⟩ := insert_full_leaf_root _ p8.1 p8.2 es7 ho7 hr7 hl7'
  refine ⟨by rw [hr7]; rfl, by rw [hr7]; simpa [BTNode.entries] using hl7', hs7,
    ?_, ?_, ?_, ?_⟩
  · rw [hfold, hS, hs7]
    rfl
  · rw [hfold]; exact hL
  · rw [hfold]; exact hC
  · rw [hfold]; exact hE

/-- Witness for `claim_C7_single_root_split` at eight concrete keys. -/
theorem claim_C7_single_root_split_witness :
    (let ps : List (String × String) :=
      [("a", "1"), ("b", "2"), ("c", "3"), ("d", "4"),
       ("e", "5"), ("f", "6"), ("g", "7"), ("h", "8")]
     let t7 := (ps.take 7).foldl (fun t p => t.insert p.1 p.2) (BTreeIndex.new 4)
     let t8 := ps.foldl (fun t p => t.insert p.1 p.2) (BTreeIndex.new 4)
     t7.root.leafFlag = true ∧ t7.root.entries.length = 7 ∧ t7.splits = 0 ∧
     t8.splits = 1 ∧ t8.root.leafFlag = false ∧
     t8.root.children.length = 2 ∧ t8.root.entries.length = 1) :=
  claim_C7_single_root_split
    [("a", "1"), ("b", "2"), ("c", "3"), ("d", "4"),
     ("e", "5"), ("f", "6"), ("g", "7"), ("h", "8")] (by decide) (by decide)

/-! ## Theorems: AVL route-table invariants (C5) -/

theorem listLtB_irrefl (a : List Nat) : listLtB a a = false := by
  induction a with
  | nil => rfl
  | cons x xs ih => simp [listLtB, ih]

theorem listLtB_trans : ∀ {a b c : List Nat}, listLtB a b = true →
    listLtB b c = true → listLtB a c = true := by
  intro a
  induction a with
  | nil =>
    intro b c hab hbc
    cases b with
    | nil => exact hbc
    | cons y ys =>
      cases c with
      | nil => simp [listLtB] at hbc
      | cons z zs => rfl
  | cons x xs ih =>
    intro b c hab hbc
    cases b with
    | nil => simp [listLtB] at hab
    | cons y ys =>
      cases c with
      | nil => simp [listLtB] at hbc
      | cons z zs =>
        simp only [listLtB] at hab hbc ⊢
        by_cases hxy : x < y
        · by_cases hyz : y < z
          · simp [show x < z by omega]
          · simp only [hyz, if_false] at hbc
            by_cases hzy : z < y
            · simp [hzy] at hbc
            · have : y = z := by omega
              subst this
              simp [hxy]
        · simp only [hxy, if_false] at hab
          by_cases hyx : y < x
          · simp [hyx] at hab
          · have hxay : x = y := by omega
            subst hxay
            simp only [if_neg (lt_irrefl x)] at hab
            by_cases hxz : x < z
            · simp [hxz]
            · simp only [hxz, if_false] at hbc ⊢
              by_cases hzx : z < x
              · simp [hzx] at hbc
              · simp only [hzx, if_false] at hbc ⊢
                exact ih hab hbc

theorem listLtB_asymm {a b : List Nat} (h1 : listLtB a b = true)
    (h2 : listLtB b a = true) : False := by
  have := listLtB_trans h1 h2
  rw [listLtB_irrefl] at this
  exact Bool.false_ne_true this

theorem listLtB_conn : ∀ {a b : List Nat}, listLtB a b = false →
    listLtB b a = false → a = b := by
  intro a
  induction a with
  | nil =>
    intro b h1 h2
    cases b with
    | nil => rfl
    | cons y ys => simp [listLtB] at h1
  | cons x xs ih =>
    intro b h1 h2
    cases b with
    | nil => simp [listLtB] at h2
    | cons y ys =>
      simp only [listLtB] at h1 h2
      by_cases hxy : x < y
      · simp [hxy] at h1
      · by_cases hyx : y < x
        · simp [hyx] at h2
        · have hxey : x = y := by omega
          subst hxey
          simp only [if_neg (lt_irrefl x)] at h1 h2
          rw [ih h1 h2]

theorem allT_imp {P Q : RouteEntry → Prop} (h : ∀ x, P x → Q x) :
    ∀ t, AVLT.AllT P t → AVLT.AllT Q t := by
  intro t
  induction t with
  | nil => intro _; trivial
  | node e l r ht ihl ihr =>
    intro hp
    exact ⟨h e hp.1, ihl hp.2.1, ihr hp.2.2⟩

theorem getHeight_eq {t : AVLT} (h : AVLT.HeightOK t) :
    AVLT.getHeight t = AVLT.realHeight t := by
  cases t with
  | nil => rfl
  | node e l r ht => exact h.1

theorem rr_eq (e le : RouteEntry) (ll lr r : AVLT) (h1 h2 : Nat) :
    AVLT.rightRotate (AVLT.node e (AVLT.node le ll lr h1) r h2) =
      AVLT.node le ll
        (AVLT.node e lr r (1 + max (AVLT.getHeight lr) (AVLT.getHeight r)))
        (1 + max (AVLT.getHeight ll)
          (1 + max (AVLT.getHeight lr) (AVLT.getHeight r))) := rfl

theorem lr_eq (e re : RouteEntry) (l rl rr : AVLT) (h1 h2 : Nat) :
    AVLT.leftRotate (AVLT.node e l (AVLT.node re rl rr h1) h2) =
      AVLT.node re
        (AVLT.node e l rl (1 + max (AVLT.getHeight l) (AVLT.getHeight rl)))
        rr
        (1 + max (1 + max (AVLT.getHeight l) (AVLT.getHeight rl))
          (AVLT.getHeight rr)) := rfl

theorem rr_ordered {e le : RouteEntry} {ll lr r : AVLT} {h1 h2 : Nat}
    (h : AVLT.OrderedT (AVLT.node e (AVLT.node le ll lr h1) r h2)) :
    AVLT.OrderedT
      (AVLT.rightRotate (AVLT.node e (AVLT.node le ll lr h1) r h2)) := by
  obtain ⟨⟨hle, hll, hlr⟩, hr, ⟨hll2, hlr2, holl, holr⟩, hor⟩ := h
  rw [rr_eq]
  refine ⟨hll2, ⟨hle, hlr2, ?_⟩, holl, hlr, hr, holr, hor⟩
  exact allT_imp (fun x hx => listLtB_trans hle hx) r hr

theorem lr_ordered {e re : RouteEntry} {l rl rr : AVLT} {h1 h2 : Nat}
    (h : AVLT.OrderedT (AVLT.node e l (AVLT.node re rl rr h1) h2)) :
    AVLT.OrderedT
      (AVLT.leftRotate (AVLT.node e l (AVLT.node re rl rr h1) h2)) := by
  obtain ⟨hl, ⟨hre, hrl, hrr⟩, hol, ⟨hrl2, hrr2, horl, horr⟩⟩ := h
  rw [lr_eq]
  refine ⟨⟨hre, ?_, hrl2⟩, hrr2, ⟨hl, hrl, hol, horl⟩, horr⟩
  exact allT_imp (fun x hx => listLtB_trans hx hre) l hl

theorem rr_allT {P : RouteEntry → Prop} {e le : RouteEntry} {ll lr r : AVLT}
    {h1 h2 : Nat}
    (h : AVLT.AllT P (AVLT.node e (AVLT.node le ll lr h1) r h2)) :
    AVLT.AllT P
      (AVLT.rightRotate (AVLT.node e (AVLT.node le ll lr h1) r h2)) := by
  obtain ⟨hP, ⟨hPl, hPll, hPlr⟩, hPr⟩ := h
  rw [rr_eq]
  exact ⟨hPl, hPll, hP, hPlr, hPr⟩

theorem lr_allT {P : RouteEntry → Prop} {e re : RouteEntry} {l rl rr : AVLT}
    {h1 h2 : Nat}
    (h : AVLT.AllT P (AVLT.node e l (AVLT.node re rl rr h1) h2)) :
    AVLT.AllT P
      (AVLT.leftRotate (AVLT.node e l (AVLT.node re rl rr h1) h2)) := by
  obtain ⟨hP, hPl, ⟨hPr, hPrl, hPrr⟩⟩ := h
  rw [lr_eq]
  exact ⟨hPr, ⟨hP, hPl, hPrl⟩, hPrr⟩

theorem rr_heightOK {e le : RouteEntry} {ll lr r : AVLT} {h1 h2 : Nat}
    (hll : AVLT.HeightOK ll) (hlr : AVLT.HeightOK lr) (hr : AVLT.HeightOK r) :
    AVLT.HeightOK
      (AVLT.rightRotate (AVLT.node e (AVLT.node le ll lr h1) r h2)) ∧
    AVLT.realHeight
        (AVLT.rightRotate (AVLT.node e (AVLT.node le ll lr h1) r h2)) =
      1 + max (AVLT.realHeight ll)
        (1 + max (AVLT.realHeight lr) (AVLT.realHeight r)) := by
  rw [rr_eq, getHeight_eq hll, getHeight_eq hlr, getHeight_eq hr]
  refine ⟨⟨by simp [AVLT.realHeight], hll, ⟨by simp [AVLT.realHeight], hlr, hr⟩⟩, ?_⟩
  simp [AVLT.realHeight]

theorem lr_heightOK {e re : RouteEntry} {l rl rr : AVLT} {h1 h2 : Nat}
    (hl : AVLT.HeightOK l) (hrl : AVLT.HeightOK rl) (hrr : AVLT.HeightOK rr) :
    AVLT.HeightOK
      (AVLT.leftRotate (AVLT.node e l (AVLT.node re rl rr h1) h2)) ∧
    AVLT.realHeight
        (AVLT.leftRotate (AVLT.node e l (AVLT.node re rl rr h1) h2)) =
      1 + max (1 + max (AVLT.realHeight l) (AVLT.realHeight rl))
        (AVLT.realHeight rr) := by
  rw [lr_eq, getHeight_eq hl, getHeight_eq hrl, getHeight_eq hrr]
  refine ⟨⟨by simp [AVLT.realHeight], ⟨by simp [AVLT.realHeight], hl, hrl⟩, hrr⟩, ?_⟩
  simp [AVLT.realHeight]

set_option maxHeartbeats 3200000 in
theorem rebalIns_spec (k : List Nat) (e : RouteEntry) (l r : AVLT) (s : RotStats)
    (hOKl : AVLT.HeightOK l) (hOKr : AVLT.HeightOK r)
    (hBl : AVLT.BalancedT l) (hBr : AVLT.BalancedT r)
    (hOl : AVLT.OrderedT l) (hOr : AVLT.OrderedT r)
    (hAl : AVLT.AllT (fun x => listLtB (keyOfE x) (keyOfE e) = true) l)
    (hAr : AVLT.AllT (fun x => listLtB (keyOfE e) (keyOfE x) = true) r)
    (hd1 : AVLT.realHeight l ≤ AVLT.realHeight r + 2)
    (hd2 : AVLT.realHeight r ≤ AVLT.realHeight l + 2)
    (hL : AVLT.realHeight l = AVLT.realHeight r + 2 → AVLT.InsGrew k l)
    (hR : AVLT.realHeight r = AVLT.realHeight l + 2 → AVLT.InsGrew k r) :
    AVLT.HeightOK (AVLT.rebalIns k e l r s).1 ∧
    AVLT.BalancedT (AVLT.rebalIns k e l r s).1 ∧
    AVLT.OrderedT (AVLT.rebalIns k e l r s).1 ∧
    (∀ P : RouteEntry → Prop, P e → AVLT.AllT P l → AVLT.AllT P r →
      AVLT.AllT P (AVLT.rebalIns k e l r s).1) ∧
    (AVLT.realHeight l ≤ AVLT.realHeight r + 1 ∧
        AVLT.realHeight r ≤ AVLT.realHeight l + 1 →
      (AVLT.rebalIns k e l r s).1 =
        AVLT.node e l r (1 + max (AVLT.realHeight l) (AVLT.realHeight r))) ∧
    ((AVLT.realHeight l = AVLT.realHeight r + 2 ∨
        AVLT.realHeight r = AVLT.realHeight l + 2) →
      AVLT.realHeight (AVLT.rebalIns k e l r s).1 =
        max (AVLT.realHeight l) (AVLT.realHeight r)) := by
  have hgl := getHeight_eq hOKl
  have hgr := getHeight_eq hOKr
  simp only [AVLT.rebalIns, hgl, hgr]
  split_ifs with h1 h2 h3 h4
  · -- LL rotation: left is two taller and the new key went left-left
    dsimp only
    obtain ⟨h1a, h1b⟩ := h1
    cases l with
    | nil =>
      exact absurd h1a (by simp only [AVLT.realHeight]; push_cast; omega)
    | node le ll lr lh =>
      obtain ⟨hlh, hOKll, hOKlr⟩ := hOKl
      obtain ⟨hbl1, hbl2, hBll, hBlr⟩ := hBl
      obtain ⟨hAe, hAll, hAlr⟩ := hAl
      obtain ⟨hoA1, hoA2, hOll, hOlr⟩ := hOl
      simp only [AVLT.realHeight] at h1a hd1 hd2 hL
      have hg := hL (by omega)
      simp only [AVLT.InsGrew] at hg
      obtain ⟨hne, himp1, himp2⟩ := hg
      rcases Nat.lt_trichotomy (AVLT.realHeight ll) (AVLT.realHeight lr) with hlt | heq | hgt
      · have hx : listLtB k (keyOfE le) = true := h1b
        exact (listLtB_asymm hx (himp2 hlt)).elim
      · exact absurd heq hne
      · have ha1 : AVLT.realHeight ll = AVLT.realHeight r + 1 := by omega
        have ha2 : AVLT.realHeight lr = AVLT.realHeight r := by omega
        refine ⟨(rr_heightOK hOKll hOKlr hOKr).1, ?_, ?_, ?_, ?_, ?_⟩
        · rw [rr_eq]
          exact ⟨by simp only [AVLT.realHeight]; omega,
            by simp only [AVLT.realHeight]; omega, hBll,
            by omega, by omega, hBlr, hBr⟩
        · exact rr_ordered ⟨⟨hAe, hAll, hAlr⟩, hAr, ⟨hoA1, hoA2, hOll, hOlr⟩, hOr⟩
        · intro P hPe hPl hPr
          exact rr_allT ⟨hPe, hPl, hPr⟩
        · intro hcon
          have := hcon.1
          simp only [AVLT.realHeight] at this
          omega
        · intro _
          rw [(rr_heightOK hOKll hOKlr hOKr).2]
          simp only [AVLT.realHeight]
          omega
  · -- RR rotation: right is two taller and the new key went right-right
    dsimp only
    obtain ⟨h2a, h2b⟩ := h2
    cases r with
    | nil =>
      exact absurd h2a (by simp only [AVLT.realHeight]; push_cast; omega)
    | node re rl0 rr0 rh0 =>
      obtain ⟨hrh, hOKrl, hOKrr⟩ := hOKr
      obtain ⟨hbr1, hbr2, hBrl, hBrr⟩ := hBr
      obtain ⟨hAe, hArl, hArr⟩ := hAr
      obtain ⟨hoB1, hoB2, hOrl, hOrr⟩ := hOr
      simp only [AVLT.realHeight] at h2a hd1 hd2 hR
      have hg := hR (by omega)
      simp only [AVLT.InsGrew] at hg
      obtain ⟨hne, himp1, himp2⟩ := hg
      rcases Nat.lt_trichotomy (AVLT.realHeight rl0) (AVLT.realHeight rr0) with hlt | heq | hgt
      · have ha1 : AVLT.realHeight rr0 = AVLT.realHeight l + 1 := by omega
        have ha2 : AVLT.realHeight rl0 = AVLT.realHeight l := by omega
        refine ⟨(lr_heightOK hOKl hOKrl hOKrr).1, ?_, ?_, ?_, ?_, ?_⟩
        · rw [lr_eq]
          exact ⟨by simp only [AVLT.realHeight]; omega,
            by simp only [AVLT.realHeight]; omega,
            ⟨by omega, by omega, hBl, hBrl⟩, hBrr⟩
        · exact lr_ordered ⟨hAl, ⟨hAe, hArl, hArr⟩, hOl, ⟨hoB1, hoB2, hOrl, hOrr⟩⟩
        · intro P hPe hPl hPr
          exact lr_allT ⟨hPe, hPl, hPr⟩
        · intro hcon
          have := hcon.2
          simp only [AVLT.realHeight] at this
          omega
        · intro _
          rw [(lr_heightOK hOKl hOKrl hOKrr).2]
          simp only [AVLT.realHeight]
          omega
      · exact absurd heq hne
      · have hx : listLtB (keyOfE re) k = true := h2b
        exact (listLtB_asymm (himp1 hgt) hx).elim
  · -- LR double rotation
    dsimp only
    obtain ⟨h3a, h3b⟩ := h3
    cases l with
    | nil =>
      exact absurd h3a (by simp only [AVLT.realHeight]; push_cast; omega)
    | node le ll lr lh =>
      obtain ⟨hlh, hOKll, hOKlr⟩ := hOKl
      obtain ⟨hbl1, hbl2, hBll, hBlr⟩ := hBl
      obtain ⟨hAe, hAll, hAlr⟩ := hAl
      obtain ⟨hoA1, hoA2, hOll, hOlr⟩ := hOl
      simp only [AVLT.realHeight] at h3a hd1 hd2 hL
      have hg := hL (by omega)
      simp only [AVLT.InsGrew] at hg
      obtain ⟨hne, himp1, himp2⟩ := hg
      rcases Nat.lt_trichotomy (AVLT.realHeight ll) (AVLT.realHeight lr) with hlt | heq | hgt
      · cases lr with
        | nil =>
          simp only [AVLT.realHeight] at hlt
          exact absurd hlt (by omega)
        | node ce cl cr ch =>
          obtain ⟨hch, hOKcl, hOKcr⟩ := hOKlr
          obtain ⟨hbc1, hbc2, hBcl, hBcr⟩ := hBlr
          obtain ⟨hAce, hAcl, hAcr⟩ := hAlr
          obtain ⟨hoc1, hoc2, hOcl, hOcr⟩ := hOlr
          simp only [AVLT.realHeight] at hlt h3a hd1 hd2
          have ha1 : AVLT.realHeight ll = AVLT.realHeight r := by
            simp only [AVLT.realHeight] at hbl1 hbl2
            omega
          have ha2 : max (AVLT.realHeight cl) (AVLT.realHeight cr) =
              AVLT.realHeight r := by omega
          have hOKin : AVLT.HeightOK (AVLT.node le ll cl
              (1 + max (AVLT.getHeight ll) (AVLT.getHeight cl))) :=
            ⟨by rw [getHeight_eq hOKll, getHeight_eq hOKcl], hOKll, hOKcl⟩
          refine ⟨?_, ?_, ?_, ?_, ?_, ?_⟩
          · rw [lr_eq]
            exact (rr_heightOK hOKin hOKcr hOKr).1
          · rw [lr_eq, rr_eq]
            exact ⟨by simp only [AVLT.realHeight]; omega,
              by simp only [AVLT.realHeight]; omega,
              ⟨by omega, by omega, hBll, hBcl⟩,
              by omega, by omega, hBcr, hBr⟩
          · have hA2 : AVLT.AllT (fun x => listLtB (keyOfE x) (keyOfE e) = true)
                (AVLT.leftRotate (AVLT.node le ll (AVLT.node ce cl cr ch) lh)) :=
              lr_allT ⟨hAe, hAll, hAce, hAcl, hAcr⟩
            have hO2 : AVLT.OrderedT
                (AVLT.leftRotate (AVLT.node le ll (AVLT.node ce cl cr ch) lh)) :=
              lr_ordered ⟨hoA1, hoA2, hOll, hoc1, hoc2, hOcl, hOcr⟩
            rw [lr_eq] at hA2 hO2 ⊢
            exact rr_ordered ⟨hA2, hAr, hO2, hOr⟩
          · intro P hPe hPl hPr
            obtain ⟨hP1, hP2, hP3, hP4, hP5⟩ := hPl
            have hPin : AVLT.AllT P
                (AVLT.leftRotate (AVLT.node le ll (AVLT.node ce cl cr ch) lh)) :=
              lr_allT ⟨hP1, hP2, hP3, hP4, hP5⟩
            rw [lr_eq] at hPin ⊢
            exact rr_allT ⟨hPe, hPin, hPr⟩
          · intro hcon
            have := hcon.1
            simp only [AVLT.realHeight] at this
            omega
          · intro _
            rw [lr_eq, (rr_heightOK hOKin hOKcr hOKr).2, getHeight_eq hOKll,
              getHeight_eq hOKcl]
            simp only [AVLT.realHeight]
            omega
      · exact absurd heq hne
      · exact absurd ⟨by simp only [AVLT.realHeight]; omega, himp1 hgt⟩ h1
  · -- RL double rotation
    dsimp only
    obtain ⟨h4a, h4b⟩ := h4
    cases r with
    | nil =>
      exact absurd h4a (by simp only [AVLT.realHeight]; push_cast; omega)
    | node re rl0 rr0 rh0 =>
      obtain ⟨hrh, hOKrl, hOKrr⟩ := hOKr
      obtain ⟨hbr1, hbr2, hBrl, hBrr⟩ := hBr
      obtain ⟨hAe, hArl, hArr⟩ := hAr
      obtain ⟨hoB1, hoB2, hOrl, hOrr⟩ := hOr
      simp only [AVLT.realHeight] at h4a hd1 hd2 hR
      have hg := hR (by omega)
      simp only [AVLT.InsGrew] at hg
      obtain ⟨hne, himp1, himp2⟩ := hg
      rcases Nat.lt_trichotomy (AVLT.realHeight rl0) (AVLT.realHeight rr0) with hlt | heq | hgt
      · exact absurd ⟨by simp only [AVLT.realHeight]; omega, himp2 hlt⟩ h2
      · exact absurd heq hne
      · cases rl0 with
        | nil =>
          simp only [AVLT.realHeight] at hgt
          exact absurd hgt (by omega)
        | node ce cl cr ch =>
          obtain ⟨hch, hOKcl, hOKcr⟩ := hOKrl
          obtain ⟨hbc1, hbc2, hBcl, hBcr⟩ := hBrl
          obtain ⟨hAce, hAcl, hAcr⟩ := hArl
          obtain ⟨hoc1, hoc2, hOcl, hOcr⟩ := hOrl
          simp only [AVLT.realHeight] at hgt h4a hd1 hd2
          have ha1 : AVLT.realHeight rr0 = AVLT.realHeight l := by
            simp only [AVLT.realHeight] at hbr1 hbr2
            omega
          have ha2 : max (AVLT.realHeight cl) (AVLT.realHeight cr) =
              AVLT.realHeight l := by omega
          have hOKin : AVLT.HeightOK (AVLT.node re cr rr0
              (1 + max (AVLT.getHeight cr) (AVLT.getHeight rr0))) :=
            ⟨by rw [getHeight_eq hOKcr, getHeight_eq hOKrr], hOKcr, hOKrr⟩
          refine ⟨?_, ?_, ?_, ?_, ?_, ?_⟩
          · rw [rr_eq]
            exact (lr_heightOK hOKl hOKcl hOKin).1
          · rw [rr_eq, lr_eq]
            exact ⟨by simp only [AVLT.realHeight]; omega,
              by simp only [AVLT.realHeight]; omega,
              ⟨by omega, by omega, hBl, hBcl⟩,
              by omega, by omega, hBcr, hBrr⟩
          · have hA2 : AVLT.AllT (fun x => listLtB (keyOfE e) (keyOfE x) = true)
                (AVLT.rightRotate (AVLT.node re (AVLT.node ce cl cr ch) rr0 rh0)) :=
              rr_allT ⟨hAe, ⟨hAce, hAcl, hAcr⟩, hArr⟩
            have hO2 : AVLT.OrderedT
                (AVLT.rightRotate (AVLT.node re (AVLT.node ce cl cr ch) rr0 rh0)) :=
              rr_ordered ⟨hoB1, hoB2, ⟨hoc1, hoc2, hOcl, hOcr⟩, hOrr⟩
            rw [rr_eq] at hA2 hO2 ⊢
            exact lr_ordered ⟨hAl, hA2, hOl, hO2⟩
          · intro P hPe hPl hPr
            obtain ⟨hP1, ⟨hP2, hP3, hP4⟩, hP5⟩ := hPr
            have hPin : AVLT.AllT P
                (AVLT.rightRotate (AVLT.node re (AVLT.node ce cl cr ch) rr0 rh0)) :=
              rr_allT ⟨hP1, ⟨hP2, hP3, hP4⟩, hP5⟩
            rw [rr_eq] at hPin ⊢
            exact lr_allT ⟨hPe, hPl, hPin⟩
          · intro hcon
            have := hcon.2
            simp only [AVLT.realHeight] at this
            omega
          · intro _
            rw [rr_eq, (lr_heightOK hOKl hOKcl hOKin).2]
            simp only [AVLT.realHeight]
            omega
  · -- no rotation: the refreshed node keeps both subtrees in place
    dsimp only
    have hle1 : AVLT.realHeight l ≤ AVLT.realHeight r + 1 := by
      by_contra hcon
      have hdx : AVLT.realHeight l = AVLT.realHeight r + 2 := by omega
      have hg := hL hdx
      cases l with
      | nil => simp only [AVLT.realHeight] at hdx; omega
      | node le ll lr lh =>
        simp only [AVLT.InsGrew] at hg
        obtain ⟨hne, himp1, himp2⟩ := hg
        have hdx' : 1 + max (AVLT.realHeight ll) (AVLT.realHeight lr) =
            AVLT.realHeight r + 2 := hdx
        rcases Nat.lt_trichotomy (AVLT.realHeight ll) (AVLT.realHeight lr) with hlt | heq | hgt
        · exact h3 ⟨by simp only [AVLT.realHeight]; omega, himp2 hlt⟩
        · exact hne heq
        · exact h1 ⟨by simp only [AVLT.realHeight]; omega, himp1 hgt⟩
    have hle2 : AVLT.realHeight r ≤ AVLT.realHeight l + 1 := by
      by_contra hcon
      have hdx : AVLT.realHeight r = AVLT.realHeight l + 2 := by omega
      have hg := hR hdx
      cases r with
      | nil => simp only [AVLT.realHeight] at hdx; omega
      | node re rl0 rr0 rh0 =>
        simp only [AVLT.InsGrew] at hg
        obtain ⟨hne, himp1, himp2⟩ := hg
        have hdx' : 1 + max (AVLT.realHeight rl0) (AVLT.realHeight rr0) =
            AVLT.realHeight l + 2 := hdx
        rcases Nat.lt_trichotomy (AVLT.realHeight rl0) (AVLT.realHeight rr0) with hlt | heq | hgt
        · exact h2 ⟨by simp only [AVLT.realHeight]; omega, himp2 hlt⟩
        · exact hne heq
        · exact h4 ⟨by simp only [AVLT.realHeight]; omega, himp1 hgt⟩
    exact ⟨⟨rfl, hOKl, hOKr⟩, ⟨hle1, hle2, hBl, hBr⟩, ⟨hAl, hAr, hOl, hOr⟩,
      fun P hPe hPl hPr => ⟨hPe, hPl, hPr⟩, fun _ => rfl,
      fun hcon => absurd hcon (by omega)⟩

set_option maxHeartbeats 1600000 in
theorem insertGo_spec (p m nh : IPv4) (mt : Nat) :
    ∀ (t : AVLT) (s : RotStats),
      AVLT.HeightOK t → AVLT.BalancedT t → AVLT.OrderedT t →
      AVLT.HeightOK (AVLT.insertGo t p m nh mt s).1 ∧
      AVLT.BalancedT (AVLT.insertGo t p m nh mt s).1 ∧
      AVLT.OrderedT (AVLT.insertGo t p m nh mt s).1 ∧
      AVLT.realHeight t ≤ AVLT.realHeight (AVLT.insertGo t p m nh mt s).1 ∧
      AVLT.realHeight (AVLT.insertGo t p m nh mt s).1 ≤ AVLT.realHeight t + 1 ∧
      (AVLT.realHeight (AVLT.insertGo t p m nh mt s).1 = AVLT.realHeight t + 1 →
        t = AVLT.nil ∨ AVLT.InsGrew (keyOfPM p m) (AVLT.insertGo t p m nh mt s).1) ∧
      (∀ Q : List Nat → Prop, Q (keyOfPM p m) →
        AVLT.AllT (fun x => Q (keyOfE x)) t →
        AVLT.AllT (fun x => Q (keyOfE x)) (AVLT.insertGo t p m nh mt s).1) := by
  intro t
  induction t with
  | nil =>
    intro s _ _ _
    refine ⟨⟨by simp [AVLT.realHeight], trivial, trivial⟩,
      ⟨by simp [AVLT.realHeight], by simp [AVLT.realHeight], trivial, trivial⟩,
      ⟨trivial, trivial, trivial, trivial⟩,
      by simp [AVLT.realHeight],
      by simp [AVLT.realHeight],
      fun _ => Or.inl rfl,
      fun Q hq _ => ⟨hq, trivial, trivial⟩⟩
  | node e l r h ihl ihr =>
    intro s hOK hB hO
    obtain ⟨hh, hOKl, hOKr⟩ := hOK
    obtain ⟨hb1, hb2, hBl, hBr⟩ := hB
    obtain ⟨hAl, hAr, hOl, hOr⟩ := hO
    cases hc1 : listLtB (keyOfPM p m) (keyOfPM e.pfx e.mask) with
    | true =>
      obtain ⟨ih1, ih2, ih3, ih4, ih5, ih6, ih7⟩ := ihl s hOKl hBl hOl
      have hstep : AVLT.insertGo (AVLT.node e l r h) p m nh mt s =
          AVLT.rebalIns (keyOfPM p m) e (AVLT.insertGo l p m nh mt s).1 r
            (AVLT.insertGo l p m nh mt s).2 := by
        simp [AVLT.insertGo, hc1]
      have hAl' : AVLT.AllT (fun x => listLtB (keyOfE x) (keyOfE e) = true)
          (AVLT.insertGo l p m nh mt s).1 :=
        ih7 (fun kk => listLtB kk (keyOfE e) = true) hc1 hAl
      have hRB := rebalIns_spec (keyOfPM p m) e (AVLT.insertGo l p m nh mt s).1 r
        (AVLT.insertGo l p m nh mt s).2 ih1 hOKr ih2 hBr ih3 hOr hAl' hAr
        (by omega) (by omega)
        (fun hd => by
          rcases ih6 (by omega) with hnil | hg
          · subst hnil
            simp only [AVLT.realHeight] at ih5 hd
            exact absurd hd (by omega)
          · exact hg)
        (fun hd => absurd hd (by omega))
      obtain ⟨g1, g2, g3, g4, g5, g6⟩ := hRB
      rw [hstep]
      rcases le_or_lt (AVLT.realHeight (AVLT.insertGo l p m nh mt s).1)
        (AVLT.realHeight r + 1) with hsmall | hbig
      · have he := g5 ⟨hsmall, by omega⟩
        rw [he] at g1 g2 g3 g4 ⊢
        refine ⟨g1, g2, g3, ?_, ?_, ?_, ?_⟩
        · simp only [AVLT.realHeight]; omega
        · simp only [AVLT.realHeight]; omega
        · intro hgrew
          simp only [AVLT.realHeight] at hgrew
          exact Or.inr ⟨by omega, fun _ => hc1, fun hcon => absurd hcon (by omega)⟩
        · intro Q hq hAll
          obtain ⟨hQe, hQl, hQr⟩ := hAll
          exact g4 _ hQe (ih7 Q hq hQl) hQr
      · have hd : AVLT.realHeight (AVLT.insertGo l p m nh mt s).1 =
            AVLT.realHeight r + 2 := by omega
        have hra := g6 (Or.inl hd)
        refine ⟨g1, g2, g3, ?_, ?_, ?_, ?_⟩
        · rw [hra]; simp only [AVLT.realHeight]; omega
        · rw [hra]; simp only [AVLT.realHeight]; omega
        · intro hgrew
          rw [hra] at hgrew
          simp only [AVLT.realHeight] at hgrew
          exact absurd hgrew (by omega)
        · intro Q hq hAll
          obtain ⟨hQe, hQl, hQr⟩ := hAll
          exact g4 _ hQe (ih7 Q hq hQl) hQr
    | false =>
      cases hc2 : listLtB (keyOfPM e.pfx e.mask) (keyOfPM p m) with
      | true =>
        obtain ⟨ih1, ih2, ih3, ih4, ih5, ih6, ih7⟩ := ihr s hOKr hBr hOr
        have hstep : AVLT.insertGo (AVLT.node e l r h) p m nh mt s =
            AVLT.rebalIns (keyOfPM p m) e l (AVLT.insertGo r p m nh mt s).1
              (AVLT.insertGo r p m nh mt s).2 := by
          simp [AVLT.insertGo, hc1, hc2]
        have hAr' : AVLT.AllT (fun x => listLtB (keyOfE e) (keyOfE x) = true)
            (AVLT.insertGo r p m nh mt s).1 :=
          ih7 (fun kk => listLtB (keyOfE e) kk = true) hc2 hAr
        have hRB := rebalIns_spec (keyOfPM p m) e l (AVLT.insertGo r p m nh mt s).1
          (AVLT.insertGo r p m nh mt s).2 hOKl ih1 hBl ih2 hOl ih3 hAl hAr'
          (by omega) (by omega)
          (fun hd => absurd hd (by omega))
          (fun hd => by
            rcases ih6 (by omega) with hnil | hg
            · subst hnil
              simp only [AVLT.realHeight] at ih5 hd
              exact absurd hd (by omega)
            · exact hg)
        obtain ⟨g1, g2, g3, g4, g5, g6⟩ := hRB
        rw [hstep]
        rcases le_or_lt (AVLT.realHeight (AVLT.insertGo r p m nh mt s).1)
          (AVLT.realHeight l + 1) with hsmall | hbig
        · have he := g5 ⟨by omega, hsmall⟩
          rw [he] at g1 g2 g3 g4 ⊢
          refine ⟨g1, g2, g3, ?_, ?_, ?_, ?_⟩
          · simp only [AVLT.realHeight]; omega
          · simp only [AVLT.realHeight]; omega
          · intro hgrew
            simp only [AVLT.realHeight] at hgrew
            exact Or.inr ⟨by omega, fun hcon => absurd hcon (by omega), fun _ => hc2⟩
          · intro Q hq hAll
            obtain ⟨hQe, hQl, hQr⟩ := hAll
            exact g4 _ hQe hQl (ih7 Q hq hQr)
        · have hd : AVLT.realHeight (AVLT.insertGo r p m nh mt s).1 =
              AVLT.realHeight l + 2 := by omega
          have hra := g6 (Or.inr hd)
          refine ⟨g1, g2, g3, ?_, ?_, ?_, ?_⟩
          · rw [hra]; simp only [AVLT.realHeight]; omega
          · rw [hra]; simp only [AVLT.realHeight]; omega
          · intro hgrew
            rw [hra] at hgrew
            simp only [AVLT.realHeight] at hgrew
            exact absurd hgrew (by omega)
          · intro Q hq hAll
            obtain ⟨hQe, hQl, hQr⟩ := hAll
            exact g4 _ hQe hQl (ih7 Q hq hQr)
      | false =>
        have hstep : AVLT.insertGo (AVLT.node e l r h) p m nh mt s =
            (AVLT.node { e with nextHop := nh, metric := mt } l r h, s) := by
          simp [AVLT.insertGo, hc1, hc2]
        rw [hstep]
        dsimp only
        refine ⟨⟨hh, hOKl, hOKr⟩, ⟨hb1, hb2, hBl, hBr⟩, ⟨hAl, hAr, hOl, hOr⟩,
          le_refl _, Nat.le_succ _, ?_, fun Q hq hAll => ⟨hAll.1, hAll.2.1, hAll.2.2⟩⟩
        intro hgrew
        simp only [AVLT.realHeight] at hgrew
        exact absurd hgrew (by omega)

theorem listLtB_ne {a b : List Nat} (h : listLtB a b = true) : a ≠ b := by
  intro heq
  rw [heq, listLtB_irrefl] at h
  exact Bool.noConfusion h

theorem allT_and {P Q : RouteEntry → Prop} :
    ∀ {t : AVLT}, AVLT.AllT P t → AVLT.AllT Q t →
      AVLT.AllT (fun x => P x ∧ Q x) t := by
  intro t
  induction t with
  | nil => intro _ _; trivial
  | node e l r h ihl ihr =>
    intro hp hq
    exact ⟨⟨hp.1, hq.1⟩, ihl hp.2.1 hq.2.1, ihr hp.2.2 hq.2.2⟩

theorem allT_imp2 {P Q : RouteEntry → Prop} {t : AVLT} (ht : AVLT.AllT P t)
    (h : ∀ x, P x → Q x) : AVLT.AllT Q t := allT_imp h t ht

theorem allT_minEntry {P : RouteEntry → Prop} :
    ∀ (t : AVLT), AVLT.AllT P t → t ≠ AVLT.nil → P (AVLT.minEntry t) := by
  intro t
  induction t with
  | nil => intro _ hne; exact absurd rfl hne
  | node e l r h ihl ihr =>
    intro hA _
    cases l with
    | nil => exact hA.1
    | node e2 l2 r2 h2 => exact ihl hA.2.1 (fun hx => AVLT.noConfusion hx)

theorem minEntry_le :
    ∀ (t : AVLT), AVLT.OrderedT t → t ≠ AVLT.nil →
      AVLT.AllT (fun x => listLtB (keyOfE (AVLT.minEntry t)) (keyOfE x) = true ∨
        keyOfE x = keyOfE (AVLT.minEntry t)) t := by
  intro t
  induction t with
  | nil => intro _ hne; exact absurd rfl hne
  | node e l r h ihl ihr =>
    intro hO _
    obtain ⟨hAl, hAr, hOl, hOr⟩ := hO
    cases l with
    | nil =>
      exact ⟨Or.inr rfl, trivial, allT_imp (fun x hx => Or.inl hx) r hAr⟩
    | node e2 l2 r2 h2 =>
      have hm := ihl hOl (fun hx => AVLT.noConfusion hx)
      have hμe : listLtB (keyOfE (AVLT.minEntry (AVLT.node e2 l2 r2 h2)))
          (keyOfE e) = true :=
        allT_minEntry _ hAl (fun hx => AVLT.noConfusion hx)
      exact ⟨Or.inl hμe, hm,
        allT_imp (fun x hx => Or.inl (listLtB_trans hμe hx)) r hAr⟩

set_option maxHeartbeats 3200000 in
theorem rebalDel_spec (e : RouteEntry) (l r : AVLT) (s : RotStats)
    (hOKl : AVLT.HeightOK l) (hOKr : AVLT.HeightOK r)
    (hBl : AVLT.BalancedT l) (hBr : AVLT.BalancedT r)
    (hOl : AVLT.OrderedT l) (hOr : AVLT.OrderedT r)
    (hAl : AVLT.AllT (fun x => listLtB (keyOfE x) (keyOfE e) = true) l)
    (hAr : AVLT.AllT (fun x => listLtB (keyOfE e) (keyOfE x) = true) r)
    (hd1 : AVLT.realHeight l ≤ AVLT.realHeight r + 2)
    (hd2 : AVLT.realHeight r ≤ AVLT.realHeight l + 2) :
    AVLT.HeightOK (AVLT.rebalDel e l r s).1 ∧
    AVLT.BalancedT (AVLT.rebalDel e l r s).1 ∧
    AVLT.OrderedT (AVLT.rebalDel e l r s).1 ∧
    (∀ P : RouteEntry → Prop, P e → AVLT.AllT P l → AVLT.AllT P r →
      AVLT.AllT P (AVLT.rebalDel e l r s).1) ∧
    (AVLT.realHeight l ≤ AVLT.realHeight r + 1 ∧
        AVLT.realHeight r ≤ AVLT.realHeight l + 1 →
      AVLT.realHeight (AVLT.rebalDel e l r s).1 =
        1 + max (AVLT.realHeight l) (AVLT.realHeight r)) ∧
    ((AVLT.realHeight l = AVLT.realHeight r + 2 ∨
        AVLT.realHeight r = AVLT.realHeight l + 2) →
      max (AVLT.realHeight l) (AVLT.realHeight r) ≤
          AVLT.realHeight (AVLT.rebalDel e l r s).1 ∧
        AVLT.realHeight (AVLT.rebalDel e l r s).1 ≤
          1 + max (AVLT.realHeight l) (AVLT.realHeight r)) := by
  have hgl := getHeight_eq hOKl
  have hgr := getHeight_eq hOKr
  simp only [AVLT.rebalDel, hgl, hgr]
  split_ifs with h1 h2 h3 h4
  · -- left-heavy, left child not left-light: single right rotation
    dsimp only
    obtain ⟨h1a, h1b⟩ := h1
    cases l with
    | nil =>
      exact absurd h1a (by simp only [AVLT.realHeight]; push_cast; omega)
    | node le ll lr lh =>
      obtain ⟨hlh, hOKll, hOKlr⟩ := hOKl
      obtain ⟨hbl1, hbl2, hBll, hBlr⟩ := hBl
      obtain ⟨hAe, hAll, hAlr⟩ := hAl
      obtain ⟨hoA1, hoA2, hOll, hOlr⟩ := hOl
      have hbal : (AVLT.getHeight ll : Int) - AVLT.getHeight lr ≥ 0 := h1b
      rw [getHeight_eq hOKll, getHeight_eq hOKlr] at hbal
      simp only [AVLT.realHeight] at h1a hd1 hd2
      have ha1 : AVLT.realHeight ll = AVLT.realHeight r + 1 := by omega
      have ha2 : AVLT.realHeight r ≤ AVLT.realHeight lr := by omega
      have ha3 : AVLT.realHeight lr ≤ AVLT.realHeight r + 1 := by omega
      refine ⟨(rr_heightOK hOKll hOKlr hOKr).1, ?_,
        rr_ordered ⟨⟨hAe, hAll, hAlr⟩, hAr, ⟨hoA1, hoA2, hOll, hOlr⟩, hOr⟩,
        fun P hPe hPl hPr => rr_allT ⟨hPe, hPl, hPr⟩, ?_, ?_⟩
      · rw [rr_eq]
        exact ⟨by simp only [AVLT.realHeight]; omega,
          by simp only [AVLT.realHeight]; omega, hBll,
          by omega, by omega, hBlr, hBr⟩
      · intro hcon
        have := hcon.1
        simp only [AVLT.realHeight] at this
        omega
      · intro _
        rw [(rr_heightOK hOKll hOKlr hOKr).2]
        simp only [AVLT.realHeight]
        omega
  · -- left-heavy, left child right-heavy: double rotation
    dsimp only
    obtain ⟨h2a, h2b⟩ := h2
    cases l with
    | nil =>
      exact absurd h2a (by simp only [AVLT.realHeight]; push_cast; omega)
    | node le ll lr lh =>
      obtain ⟨hlh, hOKll, hOKlr⟩ := hOKl
      obtain ⟨hbl1, hbl2, hBll, hBlr⟩ := hBl
      obtain ⟨hAe, hAll, hAlr⟩ := hAl
      obtain ⟨hoA1, hoA2, hOll, hOlr⟩ := hOl
      have hbal : (AVLT.getHeight ll : Int) - AVLT.getHeight lr < 0 := h2b
      rw [getHeight_eq hOKll, getHeight_eq hOKlr] at hbal
      cases lr with
      | nil =>
        exact absurd hbal (by simp only [AVLT.realHeight]; push_cast; omega)
      | node ce cl cr ch =>
        obtain ⟨hch, hOKcl, hOKcr⟩ := hOKlr
        obtain ⟨hbc1, hbc2, hBcl, hBcr⟩ := hBlr
        obtain ⟨hAce, hAcl, hAcr⟩ := hAlr
        obtain ⟨hoc1, hoc2, hOcl, hOcr⟩ := hOlr
        simp only [AVLT.realHeight] at h2a hd1 hd2 hbal hbl1 hbl2
        have ha1 : AVLT.realHeight ll = AVLT.realHeight r := by omega
        have ha2 : max (AVLT.realHeight cl) (AVLT.realHeight cr) =
            AVLT.realHeight r := by omega
        have hOKin : AVLT.HeightOK (AVLT.node le ll cl
            (1 + max (AVLT.getHeight ll) (AVLT.getHeight cl))) :=
          ⟨by rw [getHeight_eq hOKll, getHeight_eq hOKcl], hOKll, hOKcl⟩
        refine ⟨?_, ?_, ?_, ?_, ?_, ?_⟩
        · rw [lr_eq]
          exact (rr_heightOK hOKin hOKcr hOKr).1
        · rw [lr_eq, rr_eq]
          exact ⟨by simp only [AVLT.realHeight]; omega,
            by simp only [AVLT.realHeight]; omega,
            ⟨by omega, by omega, hBll, hBcl⟩,
            by omega, by omega, hBcr, hBr⟩
        · have hA2 : AVLT.AllT (fun x => listLtB (keyOfE x) (keyOfE e) = true)
              (AVLT.leftRotate (AVLT.node le ll (AVLT.node ce cl cr ch) lh)) :=
            lr_allT ⟨hAe, hAll, hAce, hAcl, hAcr⟩
          have hO2 : AVLT.OrderedT
              (AVLT.leftRotate (AVLT.node le ll (AVLT.node ce cl cr ch) lh)) :=
            lr_ordered ⟨hoA1, hoA2, hOll, hoc1, hoc2, hOcl, hOcr⟩
          rw [lr_eq] at hA2 hO2 ⊢
          exact rr_ordered ⟨hA2, hAr, hO2, hOr⟩
        · intro P hPe hPl hPr
          obtain ⟨hP1, hP2, hP3, hP4, hP5⟩ := hPl
          have hPin : AVLT.AllT P
              (AVLT.leftRotate (AVLT.node le ll (AVLT.node ce cl cr ch) lh)) :=
            lr_allT ⟨hP1, hP2, hP3, hP4, hP5⟩
          rw [lr_eq] at hPin ⊢
          exact rr_allT ⟨hPe, hPin, hPr⟩
        · intro hcon
          have := hcon.1
          simp only [AVLT.realHeight] at this
          omega
        · intro _
          rw [lr_eq, (rr_heightOK hOKin hOKcr hOKr).2, getHeight_eq hOKll,
            getHeight_eq hOKcl]
          simp only [AVLT.realHeight]
          omega
  · -- right-heavy, right child not right-light: single left rotation
    dsimp only
    obtain ⟨h3a, h3b⟩ := h3
    cases r with
    | nil =>
      exact absurd h3a (by simp only [AVLT.realHeight]; push_cast; omega)
    | node re rl0 rr0 rh0 =>
      obtain ⟨hrh, hOKrl, hOKrr⟩ := hOKr
      obtain ⟨hbr1, hbr2, hBrl, hBrr⟩ := hBr
      obtain ⟨hAe, hArl, hArr⟩ := hAr
      obtain ⟨hoB1, hoB2, hOrl, hOrr⟩ := hOr
      have hbal : (AVLT.getHeight rl0 : Int) - AVLT.getHeight rr0 ≤ 0 := h3b
      rw [getHeight_eq hOKrl, getHeight_eq hOKrr] at hbal
      simp only [AVLT.realHeight] at h3a hd1 hd2
      have ha1 : AVLT.realHeight rr0 = AVLT.realHeight l + 1 := by omega
      have ha2 : AVLT.realHeight l ≤ AVLT.realHeight rl0 := by omega
      have ha3 : AVLT.realHeight rl0 ≤ AVLT.realHeight l + 1 := by omega
      refine ⟨(lr_heightOK hOKl hOKrl hOKrr).1, ?_,
        lr_ordered ⟨hAl, ⟨hAe, hArl, hArr⟩, hOl, ⟨hoB1, hoB2, hOrl, hOrr⟩⟩,
        fun P hPe hPl hPr => lr_allT ⟨hPe, hPl, hPr⟩, ?_, ?_⟩
      · rw [lr_eq]
        exact ⟨by simp only [AVLT.realHeight]; omega,
          by simp only [AVLT.realHeight]; omega,
          ⟨by omega, by omega, hBl, hBrl⟩, hBrr⟩
      · intro hcon
        have := hcon.2
        simp only [AVLT.realHeight] at this
        omega
      · intro _
        rw [(lr_heightOK hOKl hOKrl hOKrr).2]
        simp only [AVLT.realHeight]
        omega
  · -- right-heavy, right child left-heavy: double rotation
    dsimp only
    obtain ⟨h4a, h4b⟩ := h4
    cases r with
    | nil =>
      exact absurd h4a (by simp only [AVLT.realHeight]; push_cast; omega)
    | node re rl0 rr0 rh0 =>
      obtain ⟨hrh, hOKrl, hOKrr⟩ := hOKr
      obtain ⟨hbr1, hbr2, hBrl, hBrr⟩ := hBr
      obtain ⟨hAe, hArl, hArr⟩ := hAr
      obtain ⟨hoB1, hoB2, hOrl, hOrr⟩ := hOr
      have hbal : (AVLT.getHeight rl0 : Int) - AVLT.getHeight rr0 > 0 := h4b
      rw [getHeight_eq hOKrl, getHeight_eq hOKrr] at hbal
      cases rl0 with
      | nil =>
        exact absurd hbal (by simp only [AVLT.realHeight]; push_cast; omega)
      | node ce cl cr ch =>
        obtain ⟨hch, hOKcl, hOKcr⟩ := hOKrl
        obtain ⟨hbc1, hbc2, hBcl, hBcr⟩ := hBrl
        obtain ⟨hAce, hAcl, hAcr⟩ := hArl
        obtain ⟨hoc1, hoc2, hOcl, hOcr⟩ := hOrl
        simp only [AVLT.realHeight] at h4a hd1 hd2 hbal hbr1 hbr2
        have ha1 : AVLT.realHeight rr0 = AVLT.realHeight l := by omega
        have ha2 : max (AVLT.realHeight cl) (AVLT.realHeight cr) =
            AVLT.realHeight l := by omega
        have hOKin : AVLT.HeightOK (AVLT.node re cr rr0
            (1 + max (AVLT.getHeight cr) (AVLT.getHeight rr0))) :=
          ⟨by rw [getHeight_eq hOKcr, getHeight_eq hOKrr], hOKcr, hOKrr⟩
        refine ⟨?_, ?_, ?_, ?_, ?_, ?_⟩
        · rw [rr_eq]
          exact (lr_heightOK hOKl hOKcl hOKin).1
        · rw [rr_eq, lr_eq]
          exact ⟨by simp only [AVLT.realHeight]; omega,
            by simp only [AVLT.realHeight]; omega,
            ⟨by omega, by omega, hBl, hBcl⟩,
            by omega, by omega, hBcr, hBrr⟩
        · have hA2 : AVLT.AllT (fun x => listLtB (keyOfE e) (keyOfE x) = true)
              (AVLT.rightRotate (AVLT.node re (AVLT.node ce cl cr ch) rr0 rh0)) :=
            rr_allT ⟨hAe, ⟨hAce, hAcl, hAcr⟩, hArr⟩
          have hO2 : AVLT.OrderedT
              (AVLT.rightRotate (AVLT.node re (AVLT.node ce cl cr ch) rr0 rh0)) :=
            rr_ordered ⟨hoB1, hoB2, ⟨hoc1, hoc2, hOcl, hOcr⟩, hOrr⟩
          rw [rr_eq] at hA2 hO2 ⊢
          exact lr_ordered ⟨hAl, hA2, hOl, hO2⟩
        · intro P hPe hPl hPr
          obtain ⟨hP1, ⟨hP2, hP3, hP4⟩, hP5⟩ := hPr
          have hPin : AVLT.AllT P
              (AVLT.rightRotate (AVLT.node re (AVLT.node ce cl cr ch) rr0 rh0)) :=
            rr_allT ⟨hP1, ⟨hP2, hP3, hP4⟩, hP5⟩
          rw [rr_eq] at hPin ⊢
          exact lr_allT ⟨hPe, hPl, hPin⟩
        · intro hcon
          have := hcon.2
          simp only [AVLT.realHeight] at this
          omega
        · intro _
          rw [rr_eq, (lr_heightOK hOKl hOKcl hOKin).2]
          simp only [AVLT.realHeight]
          omega
  · -- no rotation
    dsimp only
    have hle1 : AVLT.realHeight l ≤ AVLT.realHeight r + 1 := by
      by_contra hcon
      rcases le_or_lt 0 (AVLT.getBalance l) with hb0 | hb0
      · exact h1 ⟨by omega, hb0⟩
      · exact h2 ⟨by omega, hb0⟩
    have hle2 : AVLT.realHeight r ≤ AVLT.realHeight l + 1 := by
      by_contra hcon
      rcases le_or_lt (AVLT.getBalance r) 0 with hb0 | hb0
      · exact h3 ⟨by omega, hb0⟩
      · exact h4 ⟨by omega, hb0⟩
    exact ⟨⟨rfl, hOKl, hOKr⟩, ⟨hle1, hle2, hBl, hBr⟩, ⟨hAl, hAr, hOl, hOr⟩,
      fun P hPe hPl hPr => ⟨hPe, hPl, hPr⟩, fun _ => rfl,
      fun hcon => absurd hcon (by omega)⟩

set_option maxHeartbeats 3200000 in
theorem deleteGo_spec :
    ∀ (t : AVLT) (p m : IPv4) (s : RotStats),
      AVLT.HeightOK t → AVLT.BalancedT t → AVLT.OrderedT t →
      AVLT.HeightOK (AVLT.deleteGo t p m s).1 ∧
      AVLT.BalancedT (AVLT.deleteGo t p m s).1 ∧
      AVLT.OrderedT (AVLT.deleteGo t p m s).1 ∧
      AVLT.realHeight (AVLT.deleteGo t p m s).1 ≤ AVLT.realHeight t ∧
      AVLT.realHeight t ≤ AVLT.realHeight (AVLT.deleteGo t p m s).1 + 1 ∧
      (∀ P : RouteEntry → Prop, AVLT.AllT P t →
        AVLT.AllT P (AVLT.deleteGo t p m s).1) ∧
      AVLT.AllT (fun x => ¬(keyOfE x = keyOfPM p m)) (AVLT.deleteGo t p m s).1 := by
  intro t
  induction t with
  | nil =>
    intro p m s _ _ _
    exact ⟨trivial, trivial, trivial, le_refl _, Nat.le_succ _,
      fun P _ => trivial, trivial⟩
  | node e l r h ihl ihr =>
    intro p m s hOK hB hO
    obtain ⟨hh, hOKl, hOKr⟩ := hOK
    obtain ⟨hb1, hb2, hBl, hBr⟩ := hB
    obtain ⟨hAl, hAr, hOl, hOr⟩ := hO
    cases hc1 : listLtB (keyOfPM p m) (keyOfPM e.pfx e.mask) with
    | true =>
      obtain ⟨i1, i2, i3, i4, i5, i6, i7⟩ := ihl p m s hOKl hBl hOl
      have hstep : AVLT.deleteGo (AVLT.node e l r h) p m s =
          AVLT.rebalDel e (AVLT.deleteGo l p m s).1 r
            (AVLT.deleteGo l p m s).2 := by
        rw [AVLT.deleteGo.eq_def]
        simp [hc1]
      rw [hstep]
      have hAl' : AVLT.AllT (fun x => listLtB (keyOfE x) (keyOfE e) = true)
          (AVLT.deleteGo l p m s).1 := i6 _ hAl
      obtain ⟨d1, d2, d3, d4, d5, d6⟩ := rebalDel_spec e
        (AVLT.deleteGo l p m s).1 r (AVLT.deleteGo l p m s).2
        i1 hOKr i2 hBr i3 hOr hAl' hAr (by omega) (by omega)
      have hPe : ¬(keyOfE e = keyOfPM p m) := fun hx => listLtB_ne hc1 hx.symm
      have hPr : AVLT.AllT (fun x => ¬(keyOfE x = keyOfPM p m)) r :=
        allT_imp2 hAr (fun x hx hx2 =>
          listLtB_ne (listLtB_trans hc1 hx) hx2.symm)
      have hh45 : AVLT.realHeight (AVLT.rebalDel e (AVLT.deleteGo l p m s).1 r
            (AVLT.deleteGo l p m s).2).1 ≤ AVLT.realHeight (AVLT.node e l r h) ∧
          AVLT.realHeight (AVLT.node e l r h) ≤
            AVLT.realHeight (AVLT.rebalDel e (AVLT.deleteGo l p m s).1 r
              (AVLT.deleteGo l p m s).2).1 + 1 := by
        rcases le_or_lt (AVLT.realHeight r)
          (AVLT.realHeight (AVLT.deleteGo l p m s).1 + 1) with hsm | hbg
        · rw [d5 ⟨by omega, hsm⟩]
          simp only [AVLT.realHeight]
          omega
        · obtain ⟨hx1, hx2⟩ := d6 (Or.inr (by omega))
          simp only [AVLT.realHeight]
          omega
      exact ⟨d1, d2, d3, hh45.1, hh45.2,
        fun P hA => d4 P hA.1 (i6 P hA.2.1) hA.2.2, d4 _ hPe i7 hPr⟩
    | false =>
      cases hc2 : listLtB (keyOfPM e.pfx e.mask) (keyOfPM p m) with
      | true =>
        obtain ⟨i1, i2, i3, i4, i5, i6, i7⟩ := ihr p m s hOKr hBr hOr
        have hstep : AVLT.deleteGo (AVLT.node e l r h) p m s =
            AVLT.rebalDel e l (AVLT.deleteGo r p m s).1
              (AVLT.deleteGo r p m s).2 := by
          rw [AVLT.deleteGo.eq_def]
          simp [hc1, hc2]
        rw [hstep]
        have hAr' : AVLT.AllT (fun x => listLtB (keyOfE e) (keyOfE x) = true)
            (AVLT.deleteGo r p m s).1 := i6 _ hAr
        obtain ⟨d1, d2, d3, d4, d5, d6⟩ := rebalDel_spec e l
          (AVLT.deleteGo r p m s).1 (AVLT.deleteGo r p m s).2
          hOKl i1 hBl i2 hOl i3 hAl hAr' (by omega) (by omega)
        have hPe : ¬(keyOfE e = keyOfPM p m) := fun hx => listLtB_ne hc2 hx
        have hPl : AVLT.AllT (fun x => ¬(keyOfE x = keyOfPM p m)) l :=
          allT_imp2 hAl (fun x hx hx2 =>
            listLtB_ne (listLtB_trans hx hc2) hx2)
        have hh45 : AVLT.realHeight (AVLT.rebalDel e l (AVLT.deleteGo r p m s).1
              (AVLT.deleteGo r p m s).2).1 ≤ AVLT.realHeight (AVLT.node e l r h) ∧
            AVLT.realHeight (AVLT.node e l r h) ≤
              AVLT.realHeight (AVLT.rebalDel e l (AVLT.deleteGo r p m s).1
                (AVLT.deleteGo r p m s).2).1 + 1 := by
          rcases le_or_lt (AVLT.realHeight l)
            (AVLT.realHeight (AVLT.deleteGo r p m s).1 + 1) with hsm | hbg
          · rw [d5 ⟨hsm, by omega⟩]
            simp only [AVLT.realHeight]
            omega
          · obtain ⟨hx1, hx2⟩ := d6 (Or.inl (by omega))
            simp only [AVLT.realHeight]
            omega
        exact ⟨d1, d2, d3, hh45.1, hh45.2,
          fun P hA => d4 P hA.1 hA.2.1 (i6 P hA.2.2), d4 _ hPe hPl i7⟩
      | false =>
        have heq : keyOfPM p m = keyOfPM e.pfx e.mask := listLtB_conn hc1 hc2
        cases l with
        | nil =>
          have hstep : AVLT.deleteGo (AVLT.node e AVLT.nil r h) p m s = (r, s) := by
            rw [AVLT.deleteGo.eq_def]
            simp [hc1, hc2]
          rw [hstep]
          dsimp only
          refine ⟨hOKr, hBr, hOr, ?_, ?_, fun P hA => hA.2.2, ?_⟩
          · simp only [AVLT.realHeight]; omega
          · simp only [AVLT.realHeight]; omega
          · exact allT_imp2 hAr (fun x hx hx2 => by
              rw [heq] at hx2
              rw [hx2] at hx
              simp [keyOfE, listLtB_irrefl] at hx)
        | node el ll lr lh =>
          cases r with
          | nil =>
            have hstep : AVLT.deleteGo
                (AVLT.node e (AVLT.node el ll lr lh) AVLT.nil h) p m s =
                (AVLT.node el ll lr lh, s) := by
              rw [AVLT.deleteGo.eq_def]
              simp [hc1, hc2]
            rw [hstep]
            dsimp only
            refine ⟨hOKl, hBl, hOl, ?_, ?_, fun P hA => hA.2.1, ?_⟩
            · simp only [AVLT.realHeight]; omega
            · simp only [AVLT.realHeight]; omega
            · exact allT_imp2 hAl (fun x hx hx2 => by
                rw [heq] at hx2
                rw [hx2] at hx
                simp [keyOfE, listLtB_irrefl] at hx)
          | node er rl rr0 rh0 =>
            have hne' : AVLT.node er rl rr0 rh0 ≠ AVLT.nil :=
              fun hx => AVLT.noConfusion hx
            obtain ⟨i1, i2, i3, i4, i5, i6, i7⟩ :=
              ihr (AVLT.minEntry (AVLT.node er rl rr0 rh0)).pfx
                (AVLT.minEntry (AVLT.node er rl rr0 rh0)).mask s hOKr hBr hOr
            have hstep : AVLT.deleteGo
                (AVLT.node e (AVLT.node el ll lr lh) (AVLT.node er rl rr0 rh0) h)
                  p m s =
                AVLT.rebalDel (AVLT.minEntry (AVLT.node er rl rr0 rh0))
                  (AVLT.node el ll lr lh)
                  (AVLT.deleteGo (AVLT.node er rl rr0 rh0)
                    (AVLT.minEntry (AVLT.node er rl rr0 rh0)).pfx
                    (AVLT.minEntry (AVLT.node er rl rr0 rh0)).mask s).1
                  (AVLT.deleteGo (AVLT.node er rl rr0 rh0)
                    (AVLT.minEntry (AVLT.node er rl rr0 rh0)).pfx
                    (AVLT.minEntry (AVLT.node er rl rr0 rh0)).mask s).2 := by
              rw [AVLT.deleteGo.eq_def]
              simp [hc1, hc2]
            rw [hstep]
            have htg : listLtB (keyOfE e)
                (keyOfE (AVLT.minEntry (AVLT.node er rl rr0 rh0))) = true :=
              allT_minEntry _ hAr hne'
            have hAl' : AVLT.AllT (fun x => listLtB (keyOfE x)
                (keyOfE (AVLT.minEntry (AVLT.node er rl rr0 rh0))) = true)
                (AVLT.node el ll lr lh) :=
              allT_imp2 hAl (fun x hx => listLtB_trans hx htg)
            have hm := minEntry_le _ hOr hne'
            have hAr' : AVLT.AllT (fun x =>
                listLtB (keyOfE (AVLT.minEntry (AVLT.node er rl rr0 rh0)))
                  (keyOfE x) = true)
                (AVLT.deleteGo (AVLT.node er rl rr0 rh0)
                  (AVLT.minEntry (AVLT.node er rl rr0 rh0)).pfx
                  (AVLT.minEntry (AVLT.node er rl rr0 rh0)).mask s).1 :=
              allT_imp2 (allT_and (i6 _ hm) i7)
                (fun x hx => hx.1.resolve_right hx.2)
            obtain ⟨d1, d2, d3, d4, d5, d6⟩ := rebalDel_spec
              (AVLT.minEntry (AVLT.node er rl rr0 rh0))
              (AVLT.node el ll lr lh)
              (AVLT.deleteGo (AVLT.node er rl rr0 rh0)
                (AVLT.minEntry (AVLT.node er rl rr0 rh0)).pfx
                (AVLT.minEntry (AVLT.node er rl rr0 rh0)).mask s).1
              (AVLT.deleteGo (AVLT.node er rl rr0 rh0)
                (AVLT.minEntry (AVLT.node er rl rr0 rh0)).pfx
                (AVLT.minEntry (AVLT.node er rl rr0 rh0)).mask s).2
              hOKl i1 hBl i2 hOl i3 hAl' hAr' (by omega) (by omega)
            have hrt : AVLT.realHeight (AVLT.node e (AVLT.node el ll lr lh)
                (AVLT.node er rl rr0 rh0) h) =
                1 + max (AVLT.realHeight (AVLT.node el ll lr lh))
                  (AVLT.realHeight (AVLT.node er rl rr0 rh0)) := rfl
            have hh45 : AVLT.realHeight (AVLT.rebalDel
                  (AVLT.minEntry (AVLT.node er rl rr0 rh0))
                  (AVLT.node el ll lr lh)
                  (AVLT.deleteGo (AVLT.node er rl rr0 rh0)
                    (AVLT.minEntry (AVLT.node er rl rr0 rh0)).pfx
                    (AVLT.minEntry (AVLT.node er rl rr0 rh0)).mask s).1
                  (AVLT.deleteGo (AVLT.node er rl rr0 rh0)
                    (AVLT.minEntry (AVLT.node er rl rr0 rh0)).pfx
                    (AVLT.minEntry (AVLT.node er rl rr0 rh0)).mask s).2).1 ≤
                AVLT.realHeight (AVLT.node e (AVLT.node el ll lr lh)
                  (AVLT.node er rl rr0 rh0) h) ∧
                AVLT.realHeight (AVLT.node e (AVLT.node el ll lr lh)
                  (AVLT.node er rl rr0 rh0) h) ≤
                AVLT.realHeight (AVLT.rebalDel
                  (AVLT.minEntry (AVLT.node er rl rr0 rh0))
                  (AVLT.node el ll lr lh)
                  (AVLT.deleteGo (AVLT.node er rl rr0 rh0)
                    (AVLT.minEntry (AVLT.node er rl rr0 rh0)).pfx
                    (AVLT.minEntry (AVLT.node er rl rr0 rh0)).mask s).1
                  (AVLT.deleteGo (AVLT.node er rl rr0 rh0)
                    (AVLT.minEntry (AVLT.node er rl rr0 rh0)).pfx
                    (AVLT.minEntry (AVLT.node er rl rr0 rh0)).mask s).2).1 + 1 := by
              rw [hrt]
              rcases le_or_lt (AVLT.realHeight (AVLT.node el ll lr lh))
                (AVLT.realHeight (AVLT.deleteGo (AVLT.node er rl rr0 rh0)
                  (AVLT.minEntry (AVLT.node er rl rr0 rh0)).pfx
                  (AVLT.minEntry (AVLT.node er rl rr0 rh0)).mask s).1 + 1)
                with hsm | hbg
              · rw [d5 ⟨hsm, by omega⟩]
                omega
              · obtain ⟨hx1, hx2⟩ := d6 (Or.inl (by omega))
                omega
            have hPt : ¬(keyOfE (AVLT.minEntry (AVLT.node er rl rr0 rh0)) =
                keyOfPM p m) := fun hx => by
              rw [heq] at hx
              exact listLtB_ne htg hx.symm
            have hPl : AVLT.AllT (fun x => ¬(keyOfE x = keyOfPM p m))
                (AVLT.node el ll lr lh) :=
              allT_imp2 hAl (fun x hx hx2 => by
                rw [heq] at hx2
                rw [hx2] at hx
                simp [keyOfE, listLtB_irrefl] at hx)
            have hPr0 : AVLT.AllT (fun x => ¬(keyOfE x = keyOfPM p m))
                (AVLT.node er rl rr0 rh0) :=
              allT_imp2 hAr (fun x hx hx2 => by
                rw [heq] at hx2
                rw [hx2] at hx
                simp [keyOfE, listLtB_irrefl] at hx)
            exact ⟨d1, d2, d3, hh45.1, hh45.2,
              fun P hA => d4 P (allT_minEntry _ hA.2.2 hne') hA.2.1 (i6 P hA.2.2),
              d4 _ hPt hPl (i6 _ hPr0)⟩

theorem allT_mem {P : RouteEntry → Prop} :
    ∀ {t : AVLT}, AVLT.AllT P t → ∀ x ∈ AVLT.inorderT t, P x := by
  intro t
  induction t with
  | nil => intro _ x hx; simp [AVLT.inorderT] at hx
  | node e l r h ihl ihr =>
    intro hA x hx
    simp only [AVLT.inorderT, List.mem_append, List.mem_cons] at hx
    rcases hx with hx | hx | hx
    · exact ihl hA.2.1 x hx
    · rw [hx]; exact hA.1
    · exact ihr hA.2.2 x hx

theorem inorderT_sorted :
    ∀ {t : AVLT}, AVLT.OrderedT t →
      (AVLT.inorderT t).Pairwise
        (fun a b => listLtB (keyOfE a) (keyOfE b) = true) := by
  intro t
  induction t with
  | nil => intro _; simp [AVLT.inorderT]
  | node e l r h ihl ihr =>
    intro hO
    obtain ⟨hAl, hAr, hOl, hOr⟩ := hO
    simp only [AVLT.inorderT]
    rw [List.pairwise_append]
    refine ⟨ihl hOl, ?_, ?_⟩
    · rw [List.pairwise_cons]
      exact ⟨fun b hb => allT_mem hAr b hb, ihr hOr⟩
    · intro a ha b hb
      have hae := allT_mem hAl a ha
      rcases List.mem_cons.mp hb with rfl | hb2
      · exact hae
      · exact listLtB_trans hae (allT_mem hAr b hb2)

theorem balOK_of : ∀ {t : AVLT}, AVLT.HeightOK t → AVLT.BalancedT t →
    AVLT.BalOK t := by
  intro t
  induction t with
  | nil => intro _ _; trivial
  | node e l r h ihl ihr =>
    intro hOK hB
    obtain ⟨hh, hOKl, hOKr⟩ := hOK
    obtain ⟨hb1, hb2, hBl, hBr⟩ := hB
    refine ⟨?_, ihl hOKl hBl, ihr hOKr hBr⟩
    have hbal : AVLT.getBalance (AVLT.node e l r h) =
        (AVLT.realHeight l : Int) - AVLT.realHeight r := by
      show (AVLT.getHeight l : Int) - AVLT.getHeight r = _
      rw [getHeight_eq hOKl, getHeight_eq hOKr]
    rw [hbal]
    omega

theorem foldl_applyOp_inv (ops : List TableOp) :
    ∀ (t : AVLRouteTable), AVLT.HeightOK t.root → AVLT.BalancedT t.root →
      AVLT.OrderedT t.root →
      AVLT.HeightOK (ops.foldl applyOp t).root ∧
      AVLT.BalancedT (ops.foldl applyOp t).root ∧
      AVLT.OrderedT (ops.foldl applyOp t).root := by
  induction ops with
  | nil => intro t h1 h2 h3; exact ⟨h1, h2, h3⟩
  | cons op rest ih =>
    intro t h1 h2 h3
    rw [List.foldl_cons]
    cases op with
    | add p m nh mt =>
      obtain ⟨g1, g2, g3, _⟩ := insertGo_spec p m nh mt t.root t.stats h1 h2 h3
      exact ih _ g1 g2 g3
    | del p m =>
      obtain ⟨g1, g2, g3, _⟩ := deleteGo_spec t.root p m t.stats h1 h2 h3
      exact ih _ g1 g2 g3

/-- C5 (amended): after EVERY sequence of `add_route` / `del_route`
operations on an `AVLRouteTable`, every node's balance factor (as
`_get_balance` computes it from the cached heights) lies in {-1, 0, 1},
every cached height is the true height, and the in-order traversal is
strictly sorted by the code's comparison key, the Python tuple
`(prefix, mask)` of dotted-quad octets — NOT by the
(network asc, mask-length desc, metric asc) key the claim states, which
the recorded counterexample refutes. -/
theorem claim_C5_amended (ops : List TableOp) :
    AVLT.BalOK (ops.foldl applyOp AVLRouteTable.empty).root ∧
    AVLT.HeightOK (ops.foldl applyOp AVLRouteTable.empty).root ∧
    (AVLRouteTable.inorder (ops.foldl applyOp AVLRouteTable.empty)).Pairwise
      (fun a b => listLtB (keyOfE a) (keyOfE b) = true) := by
  have hinv := foldl_applyOp_inv ops AVLRouteTable.empty trivial trivial trivial
  exact ⟨balOK_of hinv.1 hinv.2.1, hinv.1, inorderT_sorted hinv.2.2⟩
